import Mathlib

/-!
Verification of the StormShadow firewall-rule tagging, garbage-collection and
spoofing subsystem.  The definitions below are a shallow embedding of the
Python sources (StormShadow_Test/utils/network/iptables.py,
StormShadow_Test/utils/attack/AttackSession.py,
StormShadow_Test/sip_attacks/spoofer.py and
Stormshadow-main/sip_attacks/sip_spoofing.py).  Python strings are modelled as
Lean `String`, Python ints as `Int`/`Nat`, fallible operations as `Option` or
explicit result pairs, and the mutable firewall / filesystem state as explicit
state values threaded through the functions.
-/

namespace StormShadow

/-! ### Python string primitives

Executable models of the Python `str` operations used by the sources:
`strip`, `strip(chars)`, `split(sep)`, `split(sep, 1)`, `join`,
substring containment (`in`), `startswith`, and `int(...)` parsing. -/

/-- Python default strip targets (ASCII whitespace as used by `str.strip()`). -/
def isPySpace (c : Char) : Bool :=
  c = ' ' || c = '\t' || c = '\n' || c = '\r' || c = '\x0b' || c = '\x0c'

/-- Drop trailing characters satisfying `p`. -/
def trimEndBy (p : Char → Bool) (l : List Char) : List Char :=
  (l.reverse.dropWhile p).reverse

/-- Drop leading and trailing characters satisfying `p` (Python `str.strip`). -/
def pyStripBy (p : Char → Bool) (l : List Char) : List Char :=
  trimEndBy p (l.dropWhile p)

/-- Python `s.strip()`. -/
def pyStrip (s : String) : String :=
  String.mk (pyStripBy isPySpace s.data)

/-- Python `s.strip(cs)`: strip any of the characters of `cs` from both ends. -/
def pyStripChars (cs : String) (s : String) : String :=
  String.mk (pyStripBy (fun c => cs.data.contains c) s.data)

/-- List-level startswith: `startsWithL pat l` is true when `pat` is an initial
segment of `l`. -/
def startsWithL : List Char → List Char → Bool
  | [], _ => true
  | _ :: _, [] => false
  | p :: ps, c :: cs => p = c && startsWithL ps cs

/-- Python substring containment `pat in l` (scan every position). -/
def containsSubL (pat : List Char) : List Char → Bool
  | [] => pat.isEmpty
  | c :: rest => startsWithL pat (c :: rest) || containsSubL pat rest

/-- Python `pat in s` on strings. -/
def containsSub (s pat : String) : Bool :=
  containsSubL pat.data s.data

/-- Python `s.startswith(pat)`. -/
def pyStartsWith (s pat : String) : Bool :=
  startsWithL pat.data s.data

/-- Python `s.endswith(pat)`. -/
def pyEndsWith (s pat : String) : Bool :=
  startsWithL pat.data.reverse s.data.reverse

/-- Python `s.split(sep)` for a one-character separator, list level. -/
def splitAllCh (sep : Char) : List Char → List (List Char)
  | [] => [[]]
  | c :: rest =>
    if c = sep then [] :: splitAllCh sep rest
    else
      match splitAllCh sep rest with
      | [] => [[c]]
      | p :: ps => (c :: p) :: ps

/-- Python `s.split(sep)` for a one-character separator. -/
def pySplitCh (sep : Char) (s : String) : List String :=
  (splitAllCh sep s.data).map String.mk

/-- Python `s.split(sep, 1)` for a one-character separator, list level. -/
def splitOneCh (sep : Char) : List Char → List (List Char)
  | [] => [[]]
  | c :: rest =>
    if c = sep then [[], rest]
    else
      match splitOneCh sep rest with
      | [] => [[c]]
      | p :: ps => (c :: p) :: ps

/-- Python `s.split(sep, 1)` for a multi-character separator, list level. -/
def splitOneSub (pat : List Char) : List Char → List (List Char)
  | [] => [[]]
  | c :: rest =>
    if startsWithL pat (c :: rest) then [[], (c :: rest).drop pat.length]
    else
      match splitOneSub pat rest with
      | [] => [[c]]
      | p :: ps => (c :: p) :: ps

/-- Python `s.split(sep, 1)` on strings. -/
def pySplitOneSub (sep s : String) : List String :=
  (splitOneSub sep.data s.data).map String.mk

/-- Python `sep.join(parts)` for a one-character separator, list level. -/
def joinCh (sep : Char) : List (List Char) → List Char
  | [] => []
  | [p] => p
  | p :: ps => p ++ sep :: joinCh sep ps

/-- Python `":".join(parts)`. -/
def pyJoinColon (parts : List String) : String :=
  String.mk (joinCh ':' (parts.map String.data))

/-- Decimal digit character for a value below 10. -/
def digitChar (n : Nat) : Char := Char.ofNat (48 + n)

/-- Decimal digits of `n`, computed with explicit fuel so the definition is
structural and reduces by `rfl`/`decide`. -/
def natDigitsAux : Nat → Nat → List Char
  | 0, _ => []
  | fuel + 1, n =>
    if n < 10 then [digitChar n] else natDigitsAux fuel (n / 10) ++ [digitChar (n % 10)]

/-- Python `str(n)` for a natural number. -/
def natRepr (n : Nat) : String := String.mk (natDigitsAux (n + 1) n)

/-- Python `str(i)` for an integer. -/
def intRepr (i : Int) : String :=
  if i < 0 then "-" ++ natRepr i.natAbs else natRepr i.natAbs

/-- Numeric value of a decimal digit character, if it is one. -/
def digitVal (c : Char) : Option Nat :=
  if 48 ≤ c.toNat && c.toNat ≤ 57 then some (c.toNat - 48) else none

/-- Whether a character is a decimal digit (used in the analysis of the
decimal rendering). -/
def isDigitCh (c : Char) : Bool := 48 ≤ c.toNat && c.toNat ≤ 57

/-- Accumulate the value of a list of decimal digit characters; `none` on any
non-digit. -/
def digitsToNatAux (acc : Nat) : List Char → Option Nat
  | [] => some acc
  | c :: rest =>
    match digitVal c with
    | some d => digitsToNatAux (10 * acc + d) rest
    | none => none

/-- Value of a nonempty all-digit character list; `none` otherwise. -/
def digitsToNat (ds : List Char) : Option Nat :=
  match ds with
  | [] => none
  | _ => digitsToNatAux 0 ds

/-- Python `int(s)` (ASCII decimal with optional sign and surrounding
whitespace; digit-group underscores are not modelled). `none` models the
`ValueError` raised on malformed input. -/
def pyInt (s : String) : Option Int :=
  match (pyStrip s).data with
  | [] => none
  | c :: rest =>
    if c = '-' then (digitsToNat rest).map (fun n => -(Int.ofNat n))
    else if c = '+' then (digitsToNat rest).map (fun n => Int.ofNat n)
    else (digitsToNat (c :: rest)).map (fun n => Int.ofNat n)

/-! ### Rule comments (iptables.py `_comment_for` / `_parse_comment`) -/

/-- Source constant `COMMENT_PREFIX = "Stormshadow"`: the comment tag used to
identify rules owned by this system. -/
def commentTag : String := "Stormshadow"

/-- Source constant `STORMSHADOW_CHAIN`. -/
def stormshadowChain : String := "STORMSHADOW"

/-- Source constant `STORMSHADOW_NAT_CHAIN`. -/
def stormshadowNatChain : String := "STORMSHADOW-NAT"

/-- iptables.py `_comment_for`: build the comment string
`"Stormshadow:{suid}:{created_ts}[:{extra}][:NOT_DELETE]"`.  The Python guard
`if extra:` treats the empty string as absent. -/
def comment_for (suid : String) (created_ts : Int) (extra : Option String)
    (preserve : Bool) : String :=
  let parts := [commentTag, suid, intRepr created_ts]
  let parts :=
    match extra with
    | some e => if e = "" then parts else parts ++ [e]
    | none => parts
  let parts := if preserve then parts ++ ["NOT_DELETE"] else parts
  pyJoinColon parts

/-- iptables.py `_parse_comment`: parse the comment format back into
`(suid, created_ts, extra, preserve)`, or `none` if the string is not a
StormShadow comment.  Mirrors the source: substring pre-check, the
`strip().strip("/*").strip("*/").strip()` normalisation, the
`startswith(COMMENT_PREFIX + ":")` check, colon splitting, `int` conversion
(whose `ValueError` is caught as `none`), and the trailing `NOT_DELETE`
handling. -/
def parse_comment (comment : String) : Option (String × Int × Option String × Bool) :=
  if comment = "" || !(containsSub comment commentTag) then none
  else
    let raw := pyStrip (pyStripChars "*/" (pyStripChars "/*" (pyStrip comment)))
    if !(pyStartsWith raw (commentTag ++ ":")) then none
    else
      match pySplitCh ':' raw with
      | _ :: suid :: ts :: rest =>
        match pyInt ts with
        | none => none
        | some created_ts =>
          let pr :=
            match rest.getLast? with
            | some lastPart =>
              if lastPart = "NOT_DELETE" then (true, rest.dropLast) else (false, rest)
            | none => (false, rest)
          let extra := if pr.2.isEmpty then none else some (pyJoinColon pr.2)
          some (suid, created_ts, extra, pr.1)
      | _ => none

/-! ### Heartbeat directory and filesystem model (iptables.py heartbeat functions)

The heartbeat directory is modelled as a list of `(filename, mtime)` pairs
plus a list of filenames whose `unlink` raises an `OSError` other than
`FileNotFoundError` (e.g. a permission error); `mtime` is a Unix timestamp. -/

structure HbDir where
  files : List (String × Int)
  failing : List String
  deriving DecidableEq, Repr

/-- Filename of the heartbeat file for a session id (the path component of
`os.path.join(heartbeat_dir, f"{suid}.hb")` below the fixed directory). -/
def hbFilename (suid : String) : String := suid ++ ".hb"

/-- Look a filename up in a directory listing. -/
def lookupName (name : String) : List (String × Int) → Option Int
  | [] => none
  | f :: rest => if f.1 = name then some f.2 else lookupName name rest

/-- Delete a filename from a directory listing. -/
def removeName (name : String) : List (String × Int) → List (String × Int)
  | [] => []
  | f :: rest => if f.1 = name then removeName name rest else f :: removeName name rest

/-- iptables.py `heartbeat_remove`: unlink the session's heartbeat file.
Returns `true` if the file was removed or did not exist
(`FileNotFoundError` is caught and treated as success), `false` on any other
`OSError`, together with the resulting directory state. -/
def heartbeat_remove (suid : String) (d : HbDir) : Bool × HbDir :=
  let name := hbFilename suid
  match lookupName name d.files with
  | some _ =>
    if d.failing.contains name then (false, d)
    else (true, { d with files := removeName name d.files })
  | none => (true, d)

/-- iptables.py `cleanup_stale_heartbeats` (with `dry_run=False`): unlink every
`.hb` file whose age is at least `ttl_seconds`; an `OSError` during unlink is
caught and the file skipped.  Returns the new directory and the removed
count. -/
def cleanup_stale_heartbeats (now ttl_seconds : Int) (d : HbDir) : HbDir × Nat :=
  d.files.foldl
    (fun acc f =>
      if !(pyEndsWith f.1 ".hb") then acc
      else if ttl_seconds ≤ now - f.2 then
        if acc.1.failing.contains f.1 then acc
        else ({ acc.1 with files := removeName f.1 acc.1.files }, acc.2 + 1)
      else acc)
    (d, 0)

/-! ### Firewall state and rule removal (iptables.py) -/

/-- The mutable iptables state: for each `(table, chain)` pair that exists, the
list of `iptables -S` rule lines of that chain.  A pair with no entry models a
chain that does not exist (for which `_iptables_S` returns no lines). -/
structure IptablesState where
  chains : List ((String × String) × List String)
  deriving DecidableEq, Repr

/-- First entry for a `(table, chain)` key, if the chain exists. -/
def lookupChain (key : String × String) :
    List ((String × String) × List String) → Option (List String)
  | [] => none
  | c :: rest => if c.1 = key then some c.2 else lookupChain key rest

/-- iptables.py `_iptables_S`: list the rules of a chain; a chain that does not
exist yields the empty list (the `CalledProcessError` branch). -/
def iptables_S (st : IptablesState) (table chain : String) : List String :=
  match lookupChain (table, chain) st.chains with
  | some lines => lines
  | none => []

/-- Apply `f` to the rule lines of a chain (no effect if the chain does not
exist). -/
def updateChain (key : String × String) (f : List String → List String)
    (st : IptablesState) : IptablesState :=
  { chains := st.chains.map (fun c => if c.1 = key then (c.1, f c.2) else c) }

/-- Delete the first occurrence of a rule line (the effect of running the
`iptables -D` command derived from an `-S` line via `line.replace("-A", "-D", 1)`). -/
def eraseLine (line : String) : List String → List String
  | [] => []
  | l :: rest => if l = line then rest else l :: eraseLine line rest

/-- The per-line match test of `remove_rules_for_suid`:
`"-m comment --comment" in line and COMMENT_PREFIX in line and suid in line`. -/
def lineMatchesSuid (suid line : String) : Bool :=
  containsSub line "-m comment --comment" && containsSub line commentTag &&
    containsSub line suid

/-- iptables.py `remove_rules_for_suid` (with `dry_run=False` and every delete
command succeeding): list the chain once, then delete each listed line whose
text contains the comment marker, the tag, and the session id.  Returns the
new state and the removed count. -/
def remove_rules_for_suid (suid : String) (table chain : String)
    (st : IptablesState) : IptablesState × Nat :=
  (iptables_S st table chain).foldl
    (fun acc line =>
      if lineMatchesSuid suid line then
        (updateChain (table, chain) (eraseLine line) acc.1, acc.2 + 1)
      else acc)
    (st, 0)

/-! ### Garbage collection (iptables.py `cleanup_stale_rules`) -/

/-- The `should_remove` closure of `cleanup_stale_rules`: decide, from a rule
comment, whether the owner's rules must be removed.  `none` means keep (not
ours, preserved, or fresh); `some suid` names the owner to remove.  The
freshness threshold is `half_ttl = max(60, ttl_seconds // 2)` and a rule is
removed when there is no fresh heartbeat or its age reaches the TTL. -/
def should_remove (now ttl_seconds : Int) (heartbeat_files : List (String × Int))
    (comment_text : String) : Option String :=
  match parse_comment comment_text with
  | none => none
  | some (suid, created_ts, _extra, preserve) =>
    if preserve then none
    else
      let age := now - created_ts
      let half_ttl := max 60 (Int.fdiv ttl_seconds 2)
      let hb_fresh :=
        match lookupName (hbFilename suid) heartbeat_files with
        | some mtime => decide (now - mtime < half_ttl)
        | none => false
      if !hb_fresh || ttl_seconds ≤ age then some suid else none

/-- The regex `--comment\s+"([^"]+)"` attempted at the head of the character
list: literal marker, at least one whitespace, then a nonempty quoted group. -/
def tryQuotedAt (l : List Char) : Option (List Char) :=
  if startsWithL ("--comment".data) l then
    let after := l.drop 9
    if (after.takeWhile isPySpace).isEmpty then none
    else
      match after.dropWhile isPySpace with
      | '"' :: more =>
        let content := more.takeWhile (fun c => !(c = '"'))
        if content.isEmpty then none
        else
          match more.drop content.length with
          | '"' :: _ => some content
          | _ => none
      | _ => none
  else none

/-- `re.search(r'--comment\s+"([^"]+)"', line)`: try the pattern at every
position, returning the leftmost match's group. -/
def searchQuotedComment : List Char → Option (List Char)
  | [] => none
  | c :: rest =>
    match tryQuotedAt (c :: rest) with
    | some r => some r
    | none => searchQuotedComment rest

/-- Comment extraction used by the anchor-jump phase of `cleanup_stale_rules`
(the `re.search` with a quoted group). -/
def extractCommentRegex (line : String) : Option String :=
  (searchQuotedComment line.data).map String.mk

/-- Comment extraction used by the dedicated-chain phases of
`cleanup_stale_rules`:
`line.split("--comment", 1)[1].strip().split(" ", 1)[1].strip().strip("'\"")`,
with the surrounding `try/except` falling back to the whole line when an
`IndexError` occurs. -/
def extractCommentSplit (line : String) : String :=
  match pySplitOneSub "--comment" line with
  | [_, after] =>
    match splitOneCh ' ' (pyStrip after).data with
    | [_, second] => pyStripChars "'\"" (pyStrip (String.mk second))
    | _ => line
  | _ => line

/-- One anchor chain of the first phase of `cleanup_stale_rules`: for each
listed line jumping to the dedicated chain and carrying a tagged comment,
extract the comment with the regex and delete exactly that line if
`should_remove` names its owner. -/
def gcAnchorChain (now ttl_seconds : Int) (hb : List (String × Int))
    (chain : String) (acc : IptablesState × Nat) : IptablesState × Nat :=
  (iptables_S acc.1 "filter" chain).foldl
    (fun acc line =>
      if containsSub line ("-j " ++ stormshadowChain) &&
          containsSub line "-m comment --comment" && containsSub line commentTag then
        match extractCommentRegex line with
        | some ctext =>
          match should_remove now ttl_seconds hb ctext with
          | some _ => (updateChain ("filter", chain) (eraseLine line) acc.1, acc.2 + 1)
          | none => acc
        | none => acc
      else acc)
    acc

/-- One dedicated chain of the later phases of `cleanup_stale_rules`: for each
listed line carrying a tagged comment, extract the comment with the
split-based extraction and, if `should_remove` names an owner, remove all of
that owner's rules from this chain via `remove_rules_for_suid`. -/
def gcDedicatedChain (now ttl_seconds : Int) (hb : List (String × Int))
    (table chain : String) (acc : IptablesState × Nat) : IptablesState × Nat :=
  (iptables_S acc.1 table chain).foldl
    (fun acc line =>
      if containsSub line "-m comment --comment" && containsSub line commentTag then
        match should_remove now ttl_seconds hb (extractCommentSplit line) with
        | some candidate =>
          let r := remove_rules_for_suid candidate table chain acc.1
          (r.1, acc.2 + r.2)
        | none => acc
      else acc)
    acc

/-- iptables.py `cleanup_stale_rules` (with `dry_run=False`): phase 1 removes
stale heartbeat files; then stale anchor jumps in INPUT/OUTPUT/FORWARD of the
filter table are removed; then the dedicated filter and nat chains are swept.
Returns the final heartbeat directory, the final firewall state, and the
number of rules removed. -/
def cleanup_stale_rules (now ttl_seconds : Int) (d : HbDir) (st : IptablesState) :
    HbDir × IptablesState × Nat :=
  let d1 := (cleanup_stale_heartbeats now ttl_seconds d).1
  let hb := d1.files
  let a1 := gcAnchorChain now ttl_seconds hb "INPUT" (st, 0)
  let a2 := gcAnchorChain now ttl_seconds hb "OUTPUT" a1
  let a3 := gcAnchorChain now ttl_seconds hb "FORWARD" a2
  let f1 := gcDedicatedChain now ttl_seconds hb "filter" stormshadowChain a3
  let n1 := gcDedicatedChain now ttl_seconds hb "nat" stormshadowNatChain f1
  (d1, n1.1, n1.2)

/-! ### AttackSession.stop rule cleanup (AttackSession.py lines 100-105) -/

/-- The best-effort rule cleanup at the end of `AttackSession.stop`:
`remove_rules_for_suid(self.suid)` followed by
`remove_rules_for_suid(self.suid, table="nat")`.  Both calls leave the
`chain` parameter at its default `STORMSHADOW_CHAIN`. -/
def attack_session_stop_rule_cleanup (suid : String) (st : IptablesState) :
    IptablesState :=
  let st1 := (remove_rules_for_suid suid "filter" stormshadowChain st).1
  (remove_rules_for_suid suid "nat" stormshadowChain st1).1

/-! ### Spoofed address pool and packet rewrite worker (spoofer.py) -/

/-- Python `ipaddress.ip_network(f"{addr}/{p}")` for IPv4 with the default
`strict=True`: the prefix must be at most 32, the address must fit in 32 bits,
and no host bit may be set. The network is returned as `(addr, p)`. -/
def ip_network (addr p : Nat) : Except String (Nat × Nat) :=
  if 32 < p then Except.error "invalid prefix length"
  else if 2 ^ 32 ≤ addr then Except.error "address out of range"
  else if addr % 2 ^ (32 - p) ≠ 0 then Except.error "has host bits set"
  else Except.ok (addr, p)

/-- Python `IPv4Network.hosts()` (3.8+ semantics): for /31 and /32 every
address of the network is usable; otherwise the network and broadcast
addresses are excluded. -/
def hostsList (addr p : Nat) : List Nat :=
  if 31 ≤ p then (List.range (2 ^ (32 - p))).map (fun i => addr + i)
  else (List.range (2 ^ (32 - p) - 2)).map (fun i => addr + 1 + i)

/-- Dotted-quad rendering of a 32-bit address (Python `str(ip)`). -/
def natToIpStr (n : Nat) : String :=
  natRepr (n / 2 ^ 24 % 256) ++ "." ++ natRepr (n / 2 ^ 16 % 256) ++ "." ++
    natRepr (n / 2 ^ 8 % 256) ++ "." ++ natRepr (n % 256)

/-- The address-pool part of a `Spoofer`: the list built in `__init__` from
`self.spoofed_subnet.hosts()` and the round-robin cursor. -/
structure SpooferState where
  spoofed_ips : List String
  next_ip_number : Nat
  deriving DecidableEq, Repr

/-- spoofer.py `Spoofer.__init__` restricted to the subnet handling: parse the
subnet (propagating the `ip_network` failure) and enumerate its host
addresses.  No emptiness check is performed on the resulting list. -/
def spoofer_init (addr p : Nat) : Except String SpooferState :=
  (ip_network addr p).map
    (fun net => { spoofed_ips := (hostsList net.1 net.2).map natToIpStr, next_ip_number := 0 })

/-- spoofer.py `Spoofer.get_spoofed_ip`: index the pool at the cursor (an
empty pool raises `IndexError`, modelled as `Except.error`), then advance the
cursor round-robin. -/
def get_spoofed_ip (s : SpooferState) : Except String (String × SpooferState) :=
  match s.spoofed_ips[s.next_ip_number]? with
  | none => Except.error "IndexError: list index out of range"
  | some ip =>
    Except.ok (ip, { s with next_ip_number := (s.next_ip_number + 1) % s.spoofed_ips.length })

/-- Verdict rendered back to the kernel queue for one packet. -/
inductive Verdict
  | accept
  | drop
  deriving DecidableEq, Repr

/-- The part of a parsed packet that `packet_spoofer` manipulates: source
address and, when a UDP layer is present, its source port (`pkt[UDP]` raises
`IndexError` when absent). -/
structure IPPkt where
  src : String
  udpSport : Option Nat
  deriving DecidableEq, Repr

/-- spoofer.py `Spoofer.packet_spoofer`: the whole body runs under
`try/except`; on success the rewritten packet is re-injected with
`packet.accept()`, on any exception `packet.drop()` is rendered instead.
Inputs: the result of parsing the payload (`IP(packet.get_payload())`,
`Except.error` for a parse exception), the pool state, and the random
ephemeral port.  Output: the verdict, the resulting pool state (the cursor
advance is a mutation that survives a later exception), and the rewritten
payload when accepted. -/
def packet_spoofer (parsed : Except String IPPkt) (s : SpooferState)
    (ephemeral : Nat) : Verdict × SpooferState × Option IPPkt :=
  match parsed with
  | Except.error _ => (Verdict.drop, s, none)
  | Except.ok pkt =>
    match get_spoofed_ip s with
    | Except.error _ => (Verdict.drop, s, none)
    | Except.ok (ip, s1) =>
      match pkt.udpSport with
      | none => (Verdict.drop, s1, none)
      | some _ => (Verdict.accept, s1, some { src := ip, udpSport := some ephemeral })

/-! ### Spoofing coordinator start (sip_spoofing.py) -/

/-- Whether launching a worker process (`run_python`) raised an exception. -/
inductive LaunchResult
  | ok
  | raises
  deriving DecidableEq, Repr

/-- sip_spoofing.py `wait_ready_signal`: wait (bounded, default 5 s) for the
worker's datagram.  Both outcomes are only logged — the timeout path is a bare
`except` printing a warning — and the function returns `None` either way, so
its caller learns nothing.  The model returns the log lines produced. -/
def wait_ready_signal (readyWithinTimeout : Bool) : List String :=
  if readyWithinTimeout then ["Spoofer signaled ready!"] else ["Timed out"]

/-- sip_spoofing.py `SipPacketSpoofer.start_spoofing`, from the worker-launch
`try` block (line 245) onward, with rule installation already done:
launch the worker (on an exception fall back to
`_start_raw_socket_spoofing`), wait for the readiness signal unless in
dry-run, and return the success flag together with the log lines.  Note the
`return True` after `wait_ready_signal` is unconditional. -/
def start_spoofing_from_launch (dryRun : Bool) (workerLaunch rawLaunch : LaunchResult)
    (readyWithinTimeout : Bool) : Bool × List String :=
  match workerLaunch with
  | LaunchResult.ok => (true, if dryRun then [] else wait_ready_signal readyWithinTimeout)
  | LaunchResult.raises =>
    match rawLaunch with
    | LaunchResult.ok =>
      (true, (if dryRun then [] else wait_ready_signal readyWithinTimeout) ++
        ["Raw socket spoofing started successfully"])
    | LaunchResult.raises => (false, ["Failed to start raw socket spoofing"])

/-! ### Auxiliary definitions used in the theorem statements -/

/-- Spec-side definition, following the spec's words "usable host addresses":
the classical usable-host count of an IPv4 prefix, excluding the network and
broadcast addresses.  Used to compare the spec's notion with the code's
`hostsList`. -/
def specUsableHostCount (p : Nat) : Nat := 2 ^ (32 - p) - 2

/-- Rendering of an `iptables -S` rule line carrying a quoted comment, as the
rule-listing prints it: rule head, comment match, quoted comment, target. -/
def ruleLine (pre comment post : String) : String :=
  pre ++ " -m comment --comment \"" ++ comment ++ "\" " ++ post

/-- A rule line tagged for a session: some rendering of a rule whose quoted
comment was produced by `comment_for` for that session id. -/
def IsTaggedLine (suid line : String) : Prop :=
  ∃ pre ts extra preserve post, line = ruleLine pre (comment_for suid ts extra preserve) post

/-- Characters allowed at the edges of the rule text following the quoted
comment (no whitespace, no quote characters), so that the `strip` calls of the
dedicated-chain comment extraction do not eat into it. -/
def okPostEdge (ch : Char) : Bool :=
  !(isPySpace ch || ch = '\'' || ch = '"')

/-- Edge test lifted to an optional character (false when absent). -/
def edgeOK : Option Char → Bool
  | some ch => okPostEdge ch
  | none => false

/-- Well-formedness of a dedicated-chain rule line as `iptables -S` produces
it for rules inserted by this system: a head, the comment match with a quoted
comment free of spaces and quote characters, then the target text, which does
not itself contain the comment tag and has clean edges.  The head must not
contain the literal `--comment` before the comment match. -/
def GoodDedicatedLine (line : String) : Prop :=
  ∃ pre c post : List Char,
    line.data = pre ++ (" -m comment --comment \"").data ++ c ++ '"' :: ' ' :: post ∧
    containsSubL (("--comment").data) (pre ++ (" -m comment ").data) = false ∧
    (∀ ch ∈ c, (isPySpace ch || ch = '"') = false) ∧
    containsSubL commentTag.data post = false ∧
    post ≠ [] ∧
    edgeOK post.head? = true ∧
    edgeOK post.getLast? = true

/-- A preserved anchor-jump line, as `iptables -S` prints it in the INPUT
chain. -/
def c4wAnchor : String :=
  "-A INPUT -j STORMSHADOW -m comment --comment \"Stormshadow:anchor:0:INPUT->STORMSHADOW:NOT_DELETE\""

/-- A well-formed NFQUEUE rule line in the dedicated filter chain. -/
def c4wGood : String :=
  "-A STORMSHADOW -p udp -m udp --dport 5061 -m comment --comment \"Stormshadow:wxy:3:udp_dport=5061;queue=2\" -j NFQUEUE --queue-num 2"

/-- A state holding the preserved anchor jump and one well-formed dedicated
rule. -/
def c4wState : IptablesState :=
  { chains := [(("filter", "INPUT"), [c4wAnchor]),
               (("filter", stormshadowChain), [c4wGood])] }

/-- Characters allowed as the final character of an encoded comment so that
the strip pipeline of `parse_comment` leaves it intact (no whitespace and
neither of the characters stripped by `strip("/*")`). -/
def okCommentEnd (ch : Char) : Bool :=
  !(isPySpace ch || ch = '/' || ch = '*')

/-- Side conditions on the `extra` field under which the comment encoding is
invertible: when present it must be nonempty, and when the rule is not
preserved its last colon-segment must not spell `NOT_DELETE` and its last
character must survive the strip pipeline. -/
def ExtraOK : Option String → Bool → Prop
  | none, _ => True
  | some e, true => e ≠ ""
  | some e, false =>
    e ≠ "" ∧ (splitAllCh ':' e.data).getLast? ≠ some (("NOT_DELETE").data) ∧
      ∃ e0 lc, e.data = e0 ++ [lc] ∧ okCommentEnd lc = true

/-- A stale, non-preserved NFQUEUE rule line in the dedicated filter chain,
as `iptables -S` prints it (created timestamp 0). -/
def c1Line : String :=
  "-A STORMSHADOW -p udp -m udp --dport 5060 -m comment --comment \"Stormshadow:abc:0:udp_dport=5060;queue=1\" -j NFQUEUE --queue-num 1"

/-- A firewall state whose dedicated filter chain holds exactly `c1Line`. -/
def c1State : IptablesState :=
  { chains := [(("filter", stormshadowChain), [c1Line])] }

/-- A session-tagged DNAT rule line in the dedicated nat chain. -/
def c6NatLine : String :=
  "-A STORMSHADOW-NAT -p udp -d 10.10.0.0/24 -m comment --comment \"Stormshadow:abc:5:dnat_to=1.2.3.4:5060\" -j DNAT --to-destination 1.2.3.4:5060"

/-- A state with one tagged rule in the dedicated filter chain and one tagged
rule in the dedicated nat chain, both owned by session `abc`. -/
def c6State : IptablesState :=
  { chains := [(("filter", stormshadowChain), [c1Line]),
               (("nat", stormshadowNatChain), [c6NatLine])] }

/-- A rule line owned by session `12`. -/
def c7LineA : String :=
  "-A STORMSHADOW -p udp -m udp --dport 5060 -m comment --comment \"Stormshadow:12:500\" -j NFQUEUE --queue-num 1"

/-- A rule line owned by session `3`, whose timestamp `9120` happens to
contain the digits `12`. -/
def c7LineB : String :=
  "-A STORMSHADOW -p udp -m udp --dport 5061 -m comment --comment \"Stormshadow:3:9120\" -j NFQUEUE --queue-num 2"

/-- A state whose dedicated filter chain holds the rules of both sessions. -/
def c7State : IptablesState :=
  { chains := [(("filter", stormshadowChain), [c7LineA, c7LineB])] }

/-- A concrete rule line of session `aa`, rendered through `ruleLine` and
`comment_for`. -/
def c7wLineA : String :=
  ruleLine "-A STORMSHADOW -p udp" (comment_for "aa" 5 none false) "-j NFQUEUE --queue-num 1"

/-- A concrete rule line of session `bb` whose text nowhere contains `aa`. -/
def c7wLineB : String :=
  ruleLine "-A STORMSHADOW -p udp" (comment_for "bb" 7 none false) "-j NFQUEUE --queue-num 2"

/-- A state holding the two rules of sessions `aa` and `bb` in the dedicated
filter chain. -/
def c7wState : IptablesState :=
  { chains := [(("filter", stormshadowChain), [c7wLineA, c7wLineB])] }

/-! ## Theorems -/

/-! ### Lemmas about the string primitives -/

theorem startsWithL_append_self (p l : List Char) : startsWithL p (p ++ l) = true := by
  induction p with
  | nil => rfl
  | cons c cs ih => simp [startsWithL, ih]

theorem startsWithL_mem_of_short (pat : List Char) :
    ∀ a b : List Char, startsWithL pat (a ++ b) = true → a.length ≤ pat.length →
      ∀ c ∈ a, c ∈ pat := by
  induction pat with
  | nil =>
    intro a b h hlen c hc
    cases a with
    | nil => simp at hc
    | cons x xs => simp at hlen
  | cons p ps ih =>
    intro a b h hlen c hc
    cases a with
    | nil => simp at hc
    | cons x xs =>
      simp only [List.cons_append, startsWithL, Bool.and_eq_true, decide_eq_true_eq] at h
      rcases List.mem_cons.mp hc with rfl | hmem
      · simp [h.1]
      · exact List.mem_cons_of_mem _ (ih xs b h.2 (by simpa using hlen) c hmem)

theorem startsWithL_of_long (pat : List Char) :
    ∀ a b : List Char, startsWithL pat (a ++ b) = true → pat.length ≤ a.length →
      startsWithL pat a = true := by
  induction pat with
  | nil => intro a b _ _; rfl
  | cons p ps ih =>
    intro a b h hlen
    cases a with
    | nil => simp at hlen
    | cons x xs =>
      simp only [List.cons_append, startsWithL, Bool.and_eq_true, decide_eq_true_eq] at h ⊢
      exact ⟨h.1, ih xs b h.2 (by simpa using hlen)⟩

theorem containsSubL_of_startsWithL (pat l : List Char) (h : startsWithL pat l = true) :
    containsSubL pat l = true := by
  cases l with
  | nil =>
    cases pat with
    | nil => rfl
    | cons p ps => simp [startsWithL] at h
  | cons c rest => simp [containsSubL, h]

theorem containsSubL_cons_of (pat : List Char) (c : Char) (rest : List Char)
    (h : containsSubL pat rest = true) : containsSubL pat (c :: rest) = true := by
  simp [containsSubL, h]

theorem containsSubL_append_left (pat x y : List Char) (h : containsSubL pat y = true) :
    containsSubL pat (x ++ y) = true := by
  induction x with
  | nil => simpa using h
  | cons c xs ih => exact containsSubL_cons_of _ _ _ ih

theorem containsSubL_append_mid (pat x y : List Char) :
    containsSubL pat (x ++ pat ++ y) = true := by
  rw [List.append_assoc]
  exact containsSubL_append_left pat x (pat ++ y)
    (containsSubL_of_startsWithL _ _ (startsWithL_append_self pat y))

theorem containsSubL_cons_false (pat : List Char) (c : Char) (rest : List Char)
    (h : containsSubL pat (c :: rest) = false) :
    startsWithL pat (c :: rest) = false ∧ containsSubL pat rest = false := by
  simp only [containsSubL, Bool.or_eq_false_iff] at h
  exact h

theorem dropWhile_id_of_head (p : Char → Bool) (l : List Char)
    (hh : ∀ c, l.head? = some c → p c = false) : l.dropWhile p = l := by
  cases l with
  | nil => rfl
  | cons c rest => simp [List.dropWhile_cons, hh c rfl]

theorem trimEndBy_concat (p : Char → Bool) (l : List Char) (c : Char) (h : p c = false) :
    trimEndBy p (l ++ [c]) = l ++ [c] := by
  simp [trimEndBy, List.dropWhile_cons, h]

theorem pyStripBy_id (p : Char → Bool) (l : List Char)
    (hh : ∀ c, l.head? = some c → p c = false)
    (hl : ∀ c, l.getLast? = some c → p c = false) : pyStripBy p l = l := by
  rw [pyStripBy, dropWhile_id_of_head p l hh]
  rcases List.eq_nil_or_concat l with rfl | ⟨m, c, hc⟩
  · rfl
  · rw [List.concat_eq_append] at hc
    subst hc
    exact trimEndBy_concat p m c (hl c (List.getLast?_concat m))

theorem pyStrip_id (s : String)
    (hh : ∀ c, s.data.head? = some c → isPySpace c = false)
    (hl : ∀ c, s.data.getLast? = some c → isPySpace c = false) : pyStrip s = s := by
  rw [pyStrip, pyStripBy_id _ _ hh hl]

theorem pyStripChars_id (cs s : String)
    (hh : ∀ c, s.data.head? = some c → cs.data.contains c = false)
    (hl : ∀ c, s.data.getLast? = some c → cs.data.contains c = false) :
    pyStripChars cs s = s := by
  rw [pyStripChars, pyStripBy_id _ _ hh hl]

theorem splitAllCh_ne_nil (sep : Char) (l : List Char) : splitAllCh sep l ≠ [] := by
  induction l with
  | nil => simp [splitAllCh]
  | cons c rest ih =>
    by_cases h : c = sep
    · simp [splitAllCh, h]
    · simp only [splitAllCh, if_neg h]
      cases hr : splitAllCh sep rest with
      | nil => simp
      | cons p ps => simp

theorem splitAllCh_no_sep (sep : Char) (l : List Char) (h : ∀ c ∈ l, c ≠ sep) :
    splitAllCh sep l = [l] := by
  induction l with
  | nil => rfl
  | cons c rest ih =>
    have hc : ¬ (c = sep) := h c (List.mem_cons_self ..)
    rw [splitAllCh, if_neg hc, ih (fun x hx => h x (List.mem_cons_of_mem _ hx))]

theorem splitAllCh_append_sep (sep : Char) (x y : List Char) (h : ∀ c ∈ x, c ≠ sep) :
    splitAllCh sep (x ++ sep :: y) = x :: splitAllCh sep y := by
  induction x with
  | nil => simp [splitAllCh]
  | cons c xs ih =>
    have hc : ¬ (c = sep) := h c (List.mem_cons_self ..)
    rw [List.cons_append, splitAllCh, if_neg hc,
      ih (fun a ha => h a (List.mem_cons_of_mem _ ha))]

theorem joinCh_cons (sep : Char) (p : List Char) (ps : List (List Char)) (h : ps ≠ []) :
    joinCh sep (p :: ps) = p ++ sep :: joinCh sep ps := by
  cases ps with
  | nil => simp at h
  | cons q qs => rfl

theorem joinCh_splitAllCh (sep : Char) (l : List Char) :
    joinCh sep (splitAllCh sep l) = l := by
  induction l with
  | nil => rfl
  | cons c rest ih =>
    by_cases h : c = sep
    · rw [splitAllCh, if_pos h,
        joinCh_cons _ _ _ (splitAllCh_ne_nil sep rest), ih]
      simp [h]
    · rw [splitAllCh, if_neg h]
      cases hr : splitAllCh sep rest with
      | nil => exact absurd hr (splitAllCh_ne_nil sep rest)
      | cons p ps =>
        rw [hr] at ih
        cases ps with
        | nil =>
          have hp : p = rest := by simpa [joinCh] using ih
          simp [joinCh, hp]
        | cons q qs =>
          have h1 : joinCh sep ((c :: p) :: q :: qs) =
              (c :: p) ++ sep :: joinCh sep (q :: qs) := rfl
          have h2 : joinCh sep (p :: q :: qs) = p ++ sep :: joinCh sep (q :: qs) := rfl
          rw [h2] at ih
          rw [h1, ← ih]
          rfl

theorem splitOneCh_boundary (sep : Char) (u v : List Char) (h : ∀ c ∈ u, c ≠ sep) :
    splitOneCh sep (u ++ sep :: v) = [u, v] := by
  induction u with
  | nil => simp [splitOneCh]
  | cons c us ih =>
    have hc : ¬ (c = sep) := h c (List.mem_cons_self ..)
    rw [List.cons_append, splitOneCh, if_neg hc,
      ih (fun a ha => h a (List.mem_cons_of_mem _ ha))]

theorem splitOneSub_self (pat y : List Char) (hpat : pat ≠ []) :
    splitOneSub pat (pat ++ y) = [[], y] := by
  cases pat with
  | nil => simp at hpat
  | cons p ps =>
    have hsw := startsWithL_append_self (p :: ps) y
    rw [List.cons_append, splitOneSub, if_pos (by simp only [List.cons_append] at hsw; exact hsw)]
    have hd : (p :: (ps ++ y)).drop (p :: ps).length = y := List.drop_left (p :: ps) y
    rw [hd]

theorem splitOneSub_boundary (pat y : List Char) (lc : Char)
    (hpat : pat ≠ []) (hlc : lc ∉ pat) :
    ∀ x, containsSubL pat x = false → (∃ x0, x = x0 ++ [lc]) →
      splitOneSub pat (x ++ pat ++ y) = [x, y] := by
  intro x
  induction x with
  | nil =>
    rintro _ ⟨x0, hx0⟩
    exact absurd hx0.symm (by simp)
  | cons c xs ih =>
    rintro hcont ⟨x0, hx0⟩
    have hsplit := containsSubL_cons_false pat c xs hcont
    have hsw : startsWithL pat ((c :: xs) ++ (pat ++ y)) = false := by
      by_contra hT
      have hT : startsWithL pat ((c :: xs) ++ (pat ++ y)) = true := by
        revert hT
        cases startsWithL pat ((c :: xs) ++ (pat ++ y)) <;> simp
      rcases Nat.le_total pat.length (c :: xs).length with hle | hge
      · have h1 := startsWithL_of_long pat (c :: xs) (pat ++ y) hT hle
        have h2 := containsSubL_of_startsWithL _ _ h1
        rw [hcont] at h2
        exact absurd h2 (by simp)
      · have hmem := startsWithL_mem_of_short pat (c :: xs) (pat ++ y) hT hge
        have hlcmem : lc ∈ c :: xs := by
          rw [hx0]
          exact List.mem_append_right _ (by simp)
        exact hlc (hmem lc hlcmem)
    have hshape : (c :: xs) ++ pat ++ y = c :: (xs ++ pat ++ y) := by simp
    rw [hshape, splitOneSub,
      if_neg (by simpa [List.append_assoc] using hsw)]
    cases x0 with
    | nil =>
      have hc : c = lc ∧ xs = [] := by
        have := hx0
        simp at this
        exact ⟨this.1, this.2⟩
      rcases hc with ⟨rfl, rfl⟩
      rw [show ([] : List Char) ++ pat ++ y = pat ++ y by simp,
        splitOneSub_self pat y hpat]
    | cons z zs =>
      have hc : c = z ∧ xs = zs ++ [lc] := by
        have := hx0
        simp at this
        exact ⟨this.1, this.2⟩
      rw [ih hsplit.2 ⟨zs, hc.2⟩]

/-! ### Lemmas about the decimal rendering -/

theorem digitChar_isDigit (n : Nat) (h : n < 10) : isDigitCh (digitChar n) = true := by
  interval_cases n <;> decide

theorem digitVal_digitChar (n : Nat) (h : n < 10) : digitVal (digitChar n) = some n := by
  interval_cases n <;> decide

theorem natDigitsAux_digits (fuel : Nat) :
    ∀ n, n ≤ fuel → ∀ c ∈ natDigitsAux fuel n, isDigitCh c = true := by
  induction fuel with
  | zero => intro n h c hc; simp [natDigitsAux] at hc
  | succ f ih =>
    intro n h c hc
    by_cases h10 : n < 10
    · rw [natDigitsAux, if_pos h10] at hc
      simp at hc
      subst hc
      exact digitChar_isDigit n h10
    · rw [natDigitsAux, if_neg h10] at hc
      rcases List.mem_append.mp hc with hc | hc
      · have hdiv : n / 10 ≤ f := by
          have : n / 10 < n := Nat.div_lt_self (by omega) (by omega)
          omega
        exact ih (n / 10) hdiv c hc
      · simp at hc
        subst hc
        exact digitChar_isDigit _ (Nat.mod_lt _ (by omega))

theorem natDigitsAux_ne_nil (fuel n : Nat) : natDigitsAux (fuel + 1) n ≠ [] := by
  by_cases h10 : n < 10 <;> simp [natDigitsAux, h10]

theorem digitsToNatAux_append (acc : Nat) (xs ys : List Char) :
    digitsToNatAux acc (xs ++ ys) =
      match digitsToNatAux acc xs with
      | some a => digitsToNatAux a ys
      | none => none := by
  induction xs generalizing acc with
  | nil => rfl
  | cons c cs ih =>
    rw [List.cons_append, digitsToNatAux, digitsToNatAux]
    cases digitVal c with
    | none => rfl
    | some d => exact ih _

theorem digitsToNatAux_natDigitsAux (fuel : Nat) :
    ∀ n, n ≤ fuel → digitsToNatAux 0 (natDigitsAux fuel n) = some n := by
  induction fuel with
  | zero =>
    intro n h
    interval_cases n
    rfl
  | succ f ih =>
    intro n h
    by_cases h10 : n < 10
    · rw [natDigitsAux, if_pos h10, digitsToNatAux, digitVal_digitChar n h10]
      simp [digitsToNatAux]
    · rw [natDigitsAux, if_neg h10, digitsToNatAux_append]
      have hdiv : n / 10 ≤ f := by
        have : n / 10 < n := Nat.div_lt_self (by omega) (by omega)
        omega
      rw [ih (n / 10) hdiv]
      show digitsToNatAux (n / 10) [digitChar (n % 10)] = some n
      rw [digitsToNatAux, digitVal_digitChar _ (Nat.mod_lt _ (by omega))]
      simp [digitsToNatAux]
      omega

theorem natRepr_digits (n : Nat) : ∀ c ∈ (natRepr n).data, isDigitCh c = true :=
  natDigitsAux_digits (n + 1) n (by omega)

theorem natRepr_ne_nil (n : Nat) : (natRepr n).data ≠ [] := natDigitsAux_ne_nil n n

theorem digitsToNat_natRepr (n : Nat) : digitsToNat (natRepr n).data = some n := by
  have h := digitsToNatAux_natDigitsAux (n + 1) n (by omega)
  cases hd : (natRepr n).data with
  | nil => exact absurd hd (natRepr_ne_nil n)
  | cons c rest =>
    have : digitsToNat (c :: rest) = digitsToNatAux 0 (c :: rest) := rfl
    rw [this, ← hd]
    exact h

theorem isDigitCh_not_space (c : Char) (h : isDigitCh c = true) : isPySpace c = false := by
  simp only [isDigitCh, Bool.and_eq_true, decide_eq_true_eq] at h
  simp only [isPySpace, Bool.or_eq_false_iff, decide_eq_false_iff_not]
  refine ⟨⟨⟨⟨⟨?_, ?_⟩, ?_⟩, ?_⟩, ?_⟩, ?_⟩ <;> (rintro rfl; revert h; decide)

theorem isDigitCh_ne (c : Char) (h : isDigitCh c = true) (d : Char)
    (hd : d.toNat < 48 ∨ 57 < d.toNat) : c ≠ d := by
  simp only [isDigitCh, Bool.and_eq_true, decide_eq_true_eq] at h
  rintro rfl
  omega

theorem intRepr_data_nonneg (i : Int) (h : 0 ≤ i) :
    (intRepr i).data = (natRepr i.natAbs).data := by
  rw [intRepr, if_neg (Int.not_lt.2 h)]

theorem intRepr_data_neg (i : Int) (h : i < 0) :
    (intRepr i).data = '-' :: (natRepr i.natAbs).data := by
  rw [intRepr, if_pos h, String.data_append]
  rfl

theorem intRepr_chars (i : Int) :
    ∀ c ∈ (intRepr i).data, c = '-' ∨ isDigitCh c = true := by
  intro c hc
  by_cases h : i < 0
  · rw [intRepr_data_neg i h] at hc
    rcases List.mem_cons.mp hc with rfl | hc
    · exact Or.inl rfl
    · exact Or.inr (natRepr_digits _ c hc)
  · rw [intRepr_data_nonneg i (by omega)] at hc
    exact Or.inr (natRepr_digits _ c hc)

theorem intRepr_ne_nil (i : Int) : (intRepr i).data ≠ [] := by
  by_cases h : i < 0
  · rw [intRepr_data_neg i h]
    simp
  · rw [intRepr_data_nonneg i (by omega)]
    exact natRepr_ne_nil _

theorem intRepr_no_colon (i : Int) : ∀ c ∈ (intRepr i).data, c ≠ ':' := by
  intro c hc
  rcases intRepr_chars i c hc with rfl | hdig
  · decide
  · exact isDigitCh_ne c hdig ':' (by decide)

theorem intRepr_getLast_digit (i : Int) :
    ∀ c, (intRepr i).data.getLast? = some c → isDigitCh c = true := by
  intro c hc
  by_cases h : i < 0
  · rw [intRepr_data_neg i h] at hc
    rcases List.eq_nil_or_concat (natRepr i.natAbs).data with hnil | ⟨m, a, hm⟩
    · exact absurd hnil (natRepr_ne_nil _)
    · rw [List.concat_eq_append] at hm
      rw [hm, show ('-' :: (m ++ [a])) = ('-' :: m) ++ [a] by simp,
        List.getLast?_concat] at hc
      have : c = a := by simpa using hc.symm
      subst this
      exact natRepr_digits _ c (by rw [hm]; simp)
  · rw [intRepr_data_nonneg i (by omega)] at hc
    rcases List.eq_nil_or_concat (natRepr i.natAbs).data with hnil | ⟨m, a, hm⟩
    · exact absurd hnil (natRepr_ne_nil _)
    · rw [List.concat_eq_append] at hm
      rw [hm, List.getLast?_concat] at hc
      have : c = a := by simpa using hc.symm
      subst this
      exact natRepr_digits _ c (by rw [hm]; simp)

theorem pyInt_natRepr (n : Nat) : pyInt (natRepr n) = some n := by
  have hd := natRepr_digits n
  have hstrip : pyStrip (natRepr n) = natRepr n := by
    apply pyStrip_id
    · intro c hc
      exact isDigitCh_not_space c (hd c (List.mem_of_mem_head? (by simp [hc])))
    · intro c hc
      rcases List.eq_nil_or_concat (natRepr n).data with hnil | ⟨m, a, hm⟩
      · exact absurd hnil (natRepr_ne_nil n)
      · rw [List.concat_eq_append] at hm
        rw [hm, List.getLast?_concat] at hc
        have : c = a := by simpa using hc.symm
        subst this
        exact isDigitCh_not_space c (hd c (by rw [hm]; simp))
  cases hdata : (natRepr n).data with
  | nil => exact absurd hdata (natRepr_ne_nil n)
  | cons c rest =>
    have hcd : isDigitCh c = true := hd c (by rw [hdata]; simp)
    have h1 : ¬ (c = '-') := isDigitCh_ne c hcd '-' (by decide)
    have h2 : ¬ (c = '+') := isDigitCh_ne c hcd '+' (by decide)
    have hstep : pyInt (natRepr n) =
        if c = '-' then (digitsToNat rest).map (fun k => -(Int.ofNat k))
        else if c = '+' then (digitsToNat rest).map (fun k => Int.ofNat k)
        else (digitsToNat (c :: rest)).map (fun k => Int.ofNat k) := by
      rw [pyInt, hstrip, hdata]
    rw [hstep, if_neg h1, if_neg h2, ← hdata, digitsToNat_natRepr]
    rfl

theorem pyInt_intRepr (i : Int) : pyInt (intRepr i) = some i := by
  by_cases hneg : i < 0
  · have hdata := intRepr_data_neg i hneg
    have hstrip : pyStrip (intRepr i) = intRepr i := by
      apply pyStrip_id
      · intro c hc
        rw [hdata] at hc
        have : c = '-' := by simpa using hc.symm
        subst this
        decide
      · intro c hc
        exact isDigitCh_not_space c (intRepr_getLast_digit i c hc)
    have hstep : pyInt (intRepr i) =
        (digitsToNat (natRepr i.natAbs).data).map (fun k => -(Int.ofNat k)) := by
      rw [pyInt, hstrip, hdata]
      rfl
    rw [hstep, digitsToNat_natRepr, Option.map_some']
    refine congrArg some ?_
    simp only [Int.ofNat_eq_coe]
    omega
  · have h0 : 0 ≤ i := by omega
    have hdata := intRepr_data_nonneg i h0
    have hstrip : pyStrip (intRepr i) = intRepr i := by
      apply pyStrip_id
      · intro c hc
        rw [hdata] at hc
        exact isDigitCh_not_space c
          (natRepr_digits i.natAbs c (List.mem_of_mem_head? (by simp [hc])))
      · intro c hc
        exact isDigitCh_not_space c (intRepr_getLast_digit i c hc)
    cases hd : (natRepr i.natAbs).data with
    | nil => exact absurd hd (natRepr_ne_nil _)
    | cons c rest =>
      have hcd : isDigitCh c = true := natRepr_digits i.natAbs c (by rw [hd]; simp)
      have h1 : ¬ (c = '-') := isDigitCh_ne c hcd '-' (by decide)
      have h2 : ¬ (c = '+') := isDigitCh_ne c hcd '+' (by decide)
      have hstep : pyInt (intRepr i) =
          if c = '-' then (digitsToNat rest).map (fun k => -(Int.ofNat k))
          else if c = '+' then (digitsToNat rest).map (fun k => Int.ofNat k)
          else (digitsToNat (c :: rest)).map (fun k => Int.ofNat k) := by
        rw [pyInt, hstrip, hdata, hd]
      rw [hstep, if_neg h1, if_neg h2, ← hd, digitsToNat_natRepr, Option.map_some']
      refine congrArg some ?_
      simp only [Int.ofNat_eq_coe]
      omega

/-- C1 (code bug): the removal decision `should_remove` does mark the stale
dedicated-chain rule of `c1State` for removal (its owner has no heartbeat and
its age exceeds the TTL), yet `cleanup_stale_rules` removes nothing: the
dedicated-chain comment extraction
`line.split("--comment", 1)[1].strip().split(" ", 1)[1]` yields the rule text
after the quoted comment, which never parses as a comment, so the sweep of the
dedicated chains can never remove a rule, contradicting the claim that an
enumerated non-preserved rule is removed exactly when its heartbeat is not
fresh or its age reaches the TTL. -/
theorem c1_stale_dedicated_rule_not_removed :
    should_remove 1000000 7200 [] "Stormshadow:abc:0:udp_dport=5060;queue=1" = some "abc" ∧
    extractCommentSplit c1Line = "-j NFQUEUE --queue-num 1" ∧
    cleanup_stale_rules 1000000 7200 ⟨[], []⟩ c1State = (⟨[], []⟩, c1State, 0) :=
  ⟨rfl, rfl, rfl⟩

/-- C2 (counterexample): the claim says a rule of age `ttl` whose owner's
heartbeat is younger than `ttl/2` is kept, and that a rule younger than `ttl`
with no heartbeat is removed only beyond `ttl`.  The removal decision of the
code disagrees on both: at age `= ttl = 7200` with a heartbeat of age `0` the
rule is marked for removal (the age fallback is an OR, not an AND), and a rule
of age `5 < ttl` with no heartbeat file is marked for removal as well. -/
theorem c2_counterexample :
    should_remove 7200 7200 [("abc.hb", 7200)] "Stormshadow:abc:0" = some "abc" ∧
    should_remove 10 7200 [] "Stormshadow:abc:5" = some "abc" :=
  ⟨rfl, rfl⟩

/-- C2 (amended): for a rule whose comment decodes without the preserve flag,
the removal decision marks the owner for removal whenever there is no
heartbeat file at all (regardless of the rule's age), and whenever the rule's
age is at least `ttl` (regardless of the heartbeat, even a fresh one). -/
theorem c2_amended_removal_decision (now ttl ts : Int) (suid : String)
    (extra : Option String) (hb : List (String × Int)) (c : String)
    (hparse : parse_comment c = some (suid, ts, extra, false)) :
    (lookupName (hbFilename suid) hb = none → should_remove now ttl hb c = some suid) ∧
    (ttl ≤ now - ts → should_remove now ttl hb c = some suid) := by
  constructor
  · intro hnone
    simp [should_remove, hparse, hnone]
  · intro hage
    simp [should_remove, hparse, hage]

/-- C2 (witness): the amended decision rule evaluated at a concrete comment
with no heartbeat file. -/
theorem c2_amended_witness :
    should_remove 7200 7200 [] "Stormshadow:abc:0" = some "abc" :=
  (c2_amended_removal_decision 7200 7200 0 "abc" none [] "Stormshadow:abc:0" rfl).1 rfl

/-- C5 (counterexample): when the readiness timeout elapses without the
worker's signal (`wait_ready_signal` only logs "Timed out"), `start_spoofing`
still returns success — the claim that a timeout makes start return failure is
false on the code. -/
theorem c5_counterexample :
    wait_ready_signal false = ["Timed out"] ∧
    start_spoofing_from_launch false LaunchResult.ok LaunchResult.ok false =
      (true, ["Timed out"]) :=
  ⟨rfl, rfl⟩

/-- C5 (amended): `start_spoofing` blocks on `wait_ready_signal` before
returning, but the readiness outcome is discarded: the call returns failure
exactly when launching the NFQUEUE worker raises and launching the raw-socket
fallback worker raises too; the readiness timeout never affects the result. -/
theorem c5_amended_start_result (dryRun : Bool) (w r : LaunchResult) (ready : Bool) :
    (start_spoofing_from_launch dryRun w r ready).1 = false ↔
      w = LaunchResult.raises ∧ r = LaunchResult.raises := by
  cases w <;> cases r <;> simp [start_spoofing_from_launch]

/-- C6 (code bug): `AttackSession.stop` calls `remove_rules_for_suid` for the
nat table without overriding the `chain` parameter, so it lists
`nat/STORMSHADOW` (a chain that does not exist) instead of
`nat/STORMSHADOW-NAT`: the session's tagged nat rule survives `stop`, although
it matches the removal test and a call naming the right chain would remove
it. -/
theorem c6_nat_rule_survives_stop :
    attack_session_stop_rule_cleanup "abc" c6State =
      { chains := [(("filter", stormshadowChain), []),
                   (("nat", stormshadowNatChain), [c6NatLine])] } ∧
    lineMatchesSuid "abc" c6NatLine = true ∧
    remove_rules_for_suid "abc" "nat" stormshadowNatChain c6State =
      ({ chains := [(("filter", stormshadowChain), [c1Line]),
                    (("nat", stormshadowNatChain), [])] }, 1) :=
  ⟨rfl, rfl, rfl⟩

/-- C7 (counterexample): with session ids `12` and `3` in the same chain,
where session `3`'s rule line happens to contain the digits `12` inside its
timestamp, removing session `12`'s rules also deletes session `3`'s rule —
the re-listing is empty instead of containing exactly `3`'s rule.  The
ownership test of `remove_rules_for_suid` is a plain substring test on the
whole line, not a decoded-owner comparison. -/
theorem c7_counterexample :
    parse_comment "Stormshadow:12:500" = some ("12", 500, none, false) ∧
    parse_comment "Stormshadow:3:9120" = some ("3", 9120, none, false) ∧
    remove_rules_for_suid "12" "filter" stormshadowChain c7State =
      ({ chains := [(("filter", stormshadowChain), [])] }, 2) :=
  ⟨rfl, rfl, rfl⟩

/-- C8: the per-packet handler renders exactly one verdict for every packet
and never raises (it is a total function into verdicts): the verdict is accept
exactly when the payload parsed, the packet has a UDP layer, and the pool
indexing succeeds; in every other case — including any parsing or rewriting
exception — the verdict is drop. -/
theorem c8_one_verdict_per_packet (parsed : Except String IPPkt) (s : SpooferState)
    (eph : Nat) :
    ((packet_spoofer parsed s eph).1 = Verdict.accept ∨
      (packet_spoofer parsed s eph).1 = Verdict.drop) ∧
    ((packet_spoofer parsed s eph).1 = Verdict.accept ↔
      ∃ pkt, parsed = Except.ok pkt ∧ (∃ p, pkt.udpSport = some p) ∧
        s.spoofed_ips[s.next_ip_number]? ≠ none) := by
  cases parsed with
  | error e => simp [packet_spoofer]
  | ok pkt =>
    cases hg : s.spoofed_ips[s.next_ip_number]? with
    | none => simp [packet_spoofer, get_spoofed_ip, hg]
    | some ip =>
      cases hu : pkt.udpSport with
      | none => simp [packet_spoofer, get_spoofed_ip, hg, hu]
      | some p => simp [packet_spoofer, get_spoofed_ip, hg, hu]

/-- C9 (counterexample): the subnet `10.0.0.5/32` has zero usable host
addresses in the classical sense the spec appeals to, yet constructing the
spoofer from it succeeds with a one-element pool — `__init__` performs no
fail-fast check at construction. -/
theorem c9_counterexample :
    specUsableHostCount 32 = 0 ∧
    spoofer_init (10 * 2 ^ 24 + 5) 32 =
      Except.ok { spoofed_ips := ["10.0.0.5"], next_ip_number := 0 } :=
  ⟨rfl, rfl⟩

/-- C9 (amended): construction never fails for lack of usable hosts: for
every valid IPv4 network the constructor succeeds and its pool (the `hosts()`
enumeration, which under the modelled 3.8+ semantics includes the addresses
of /31 and /32 networks) is nonempty; an empty pool would surface only at the
first `get_spoofed_ip` call, as an `IndexError`, never at construction. -/
theorem c9_amended_no_failfast (addr p : Nat) (hp : p ≤ 32) (haddr : addr < 2 ^ 32)
    (hhost : addr % 2 ^ (32 - p) = 0) :
    spoofer_init addr p =
      Except.ok { spoofed_ips := (hostsList addr p).map natToIpStr, next_ip_number := 0 } ∧
    (hostsList addr p).map natToIpStr ≠ [] ∧
    get_spoofed_ip { spoofed_ips := [], next_ip_number := 0 } =
      Except.error "IndexError: list index out of range" := by
  have hpow : (2 : Nat) ^ 32 = 4294967296 := by norm_num
  have haddr4 : ¬ (4294967296 ≤ addr) := by
    rw [hpow] at haddr
    omega
  refine ⟨?_, ?_, rfl⟩
  · simp [spoofer_init, ip_network, Nat.not_lt.2 hp, haddr4, Nat.not_le.2 haddr, hhost,
      Except.map]
  · have hpos : 0 < 2 ^ (32 - p) := Nat.pos_pow_of_pos _ (by omega)
    by_cases h31 : 31 ≤ p
    · simp only [hostsList, if_pos h31, ne_eq, List.map_eq_nil_iff, List.range_eq_nil]
      omega
    · have h2 : 2 ≤ 32 - p := by omega
      have hge : 2 ^ 2 ≤ 2 ^ (32 - p) := Nat.pow_le_pow_right (by omega) h2
      simp only [hostsList, if_neg h31, ne_eq, List.map_eq_nil_iff, List.range_eq_nil]
      omega

/-- C9 (witness): the amended statement evaluated on the network
`10.0.0.0/24`. -/
theorem c9_amended_witness :
    spoofer_init 167772160 24 =
      Except.ok { spoofed_ips := (hostsList 167772160 24).map natToIpStr, next_ip_number := 0 } ∧
    (hostsList 167772160 24).map natToIpStr ≠ [] ∧
    get_spoofed_ip { spoofed_ips := [], next_ip_number := 0 } =
      Except.error "IndexError: list index out of range" :=
  c9_amended_no_failfast 167772160 24 (by decide) (by decide) (by decide)

/-- Once the heartbeat filename is removed it can no longer be looked up. -/
theorem lookupName_removeName (name : String) (l : List (String × Int)) :
    lookupName name (removeName name l) = none := by
  induction l with
  | nil => rfl
  | cons f rest ih =>
    by_cases h : f.1 = name
    · simp [removeName, h, ih]
    · simp [removeName, lookupName, h, ih]

/-- C10: `heartbeat_remove` returns true both when the heartbeat file exists
and is deleted and when it does not exist (the missing-file error is treated
as success); it returns false exactly when the file exists but its unlink
fails with another OS error; and after any successful call a second call also
returns true and leaves the directory unchanged. -/
theorem c10_heartbeat_remove_spec (suid : String) (d : HbDir) :
    (lookupName (hbFilename suid) d.files = none → heartbeat_remove suid d = (true, d)) ∧
    (∀ m, lookupName (hbFilename suid) d.files = some m →
      hbFilename suid ∉ d.failing →
      heartbeat_remove suid d =
        (true, { d with files := removeName (hbFilename suid) d.files })) ∧
    ((heartbeat_remove suid d).1 = false ↔
      lookupName (hbFilename suid) d.files ≠ none ∧
        hbFilename suid ∈ d.failing) ∧
    ((heartbeat_remove suid d).1 = true →
      heartbeat_remove suid (heartbeat_remove suid d).2 =
        (true, (heartbeat_remove suid d).2)) := by
  refine ⟨?_, ?_, ?_, ?_⟩
  · intro hnone
    simp [heartbeat_remove, hnone]
  · intro m hsome hfail
    simp [heartbeat_remove, hsome, hfail]
  · cases hl : lookupName (hbFilename suid) d.files with
    | none => simp [heartbeat_remove, hl]
    | some m =>
      by_cases hf : hbFilename suid ∈ d.failing
      · simp [heartbeat_remove, hl, hf]
      · simp [heartbeat_remove, hl, hf]
  · intro hok
    cases hl : lookupName (hbFilename suid) d.files with
    | none => simp [heartbeat_remove, hl]
    | some m =>
      by_cases hf : hbFilename suid ∈ d.failing
      · simp [heartbeat_remove, hl, hf] at hok
      · simp [heartbeat_remove, hl, hf, lookupName_removeName]

/-- C10 (witness): removing an existing heartbeat file succeeds, and an
immediately repeated removal succeeds as well without touching the
directory. -/
theorem c10_witness :
    heartbeat_remove "abc" ⟨[("abc.hb", 5)], []⟩ = (true, ⟨[], []⟩) ∧
    heartbeat_remove "abc" ⟨[], []⟩ = (true, ⟨[], []⟩) :=
  ⟨(c10_heartbeat_remove_spec "abc" ⟨[("abc.hb", 5)], []⟩).2.1 5 rfl (by decide),
   (c10_heartbeat_remove_spec "abc" ⟨[], []⟩).1 rfl⟩

/-! ### Lemmas about the comment encoding -/

theorem string_ne_empty (s : String) (h : s.data ≠ []) : ¬ (s = "") := by
  intro he
  rw [he] at h
  exact h rfl

theorem okCommentEnd_split (c : Char) (h : okCommentEnd c = true) :
    isPySpace c = false ∧ ¬ (c = '/') ∧ ¬ (c = '*') := by
  simp only [okCommentEnd, Bool.not_eq_true', Bool.or_eq_false_iff,
    decide_eq_false_iff_not] at h
  exact ⟨h.1.1, h.1.2, h.2⟩

theorem okCommentEnd_of_digit (c : Char) (h : isDigitCh c = true) :
    okCommentEnd c = true := by
  simp only [okCommentEnd, Bool.not_eq_true', Bool.or_eq_false_iff,
    decide_eq_false_iff_not]
  exact ⟨⟨isDigitCh_not_space c h, isDigitCh_ne c h '/' (by decide)⟩,
    isDigitCh_ne c h '*' (by decide)⟩

theorem stripSet_contains_false (c : Char) (h1 : ¬ (c = '/')) (h2 : ¬ (c = '*')) :
    (("/*" : String).data.contains c = false) ∧
      (("*/" : String).data.contains c = false) := by
  have hd1 : ("/*" : String).data = ['/', '*'] := rfl
  have hd2 : ("*/" : String).data = ['*', '/'] := rfl
  rw [hd1, hd2]
  constructor <;> simp [h1, h2]

/-- The strip normalisation of `parse_comment` leaves a string intact when its
first and last characters are neither whitespace nor stripped comment
delimiters. -/
theorem parse_strip_id (s : String)
    (hhead : ∀ c, s.data.head? = some c → okCommentEnd c = true)
    (hlast : ∀ c, s.data.getLast? = some c → okCommentEnd c = true) :
    pyStrip (pyStripChars "*/" (pyStripChars "/*" (pyStrip s))) = s := by
  have h1 : pyStrip s = s :=
    pyStrip_id s (fun c hc => (okCommentEnd_split c (hhead c hc)).1)
      (fun c hc => (okCommentEnd_split c (hlast c hc)).1)
  have h2 : pyStripChars "/*" s = s := by
    apply pyStripChars_id
    · intro c hc
      have h := okCommentEnd_split c (hhead c hc)
      exact (stripSet_contains_false c h.2.1 h.2.2).1
    · intro c hc
      have h := okCommentEnd_split c (hlast c hc)
      exact (stripSet_contains_false c h.2.1 h.2.2).1
  have h3 : pyStripChars "*/" s = s := by
    apply pyStripChars_id
    · intro c hc
      have h := okCommentEnd_split c (hhead c hc)
      exact (stripSet_contains_false c h.2.1 h.2.2).2
    · intro c hc
      have h := okCommentEnd_split c (hlast c hc)
      exact (stripSet_contains_false c h.2.1 h.2.2).2
  rw [h1, h2, h3, h1]

theorem splitAllCh_append_general (sep : Char) (a b : List Char) :
    splitAllCh sep (a ++ sep :: b) = splitAllCh sep a ++ splitAllCh sep b := by
  induction a with
  | nil => simp [splitAllCh]
  | cons c as ih =>
    by_cases hc : c = sep
    · rw [List.cons_append, splitAllCh, if_pos hc, ih, splitAllCh, if_pos hc]
      rfl
    · rw [List.cons_append, splitAllCh, if_neg hc, ih, splitAllCh, if_neg hc]
      cases hr : splitAllCh sep as with
      | nil => exact absurd hr (splitAllCh_ne_nil sep as)
      | cons p ps => rfl

theorem comment_for_data_none_false (suid : String) (ts : Int) :
    (comment_for suid ts none false).data =
      commentTag.data ++ (':' :: (suid.data ++ (':' :: (intRepr ts).data))) := rfl

theorem comment_for_data_none_true (suid : String) (ts : Int) :
    (comment_for suid ts none true).data =
      commentTag.data ++ (':' :: (suid.data ++ (':' ::
        ((intRepr ts).data ++ (':' :: ("NOT_DELETE" : String).data))))) := rfl

theorem comment_for_data_some_false (suid : String) (ts : Int) (e : String)
    (he : ¬ (e = "")) :
    (comment_for suid ts (some e) false).data =
      commentTag.data ++ (':' :: (suid.data ++ (':' ::
        ((intRepr ts).data ++ (':' :: e.data))))) := by
  rw [comment_for]
  simp only [if_neg he]
  rfl

theorem comment_for_data_some_true (suid : String) (ts : Int) (e : String)
    (he : ¬ (e = "")) :
    (comment_for suid ts (some e) true).data =
      commentTag.data ++ (':' :: (suid.data ++ (':' ::
        ((intRepr ts).data ++ (':' :: (e.data ++
          (':' :: ("NOT_DELETE" : String).data))))))) := by
  rw [comment_for]
  simp only [if_neg he]
  rfl

/-- Evaluation of `parse_comment` on a comment whose normalisation is the
identity and whose colon split is known: the result is the code's tail
computation on the remaining parts. -/
theorem parse_comment_of_parts (comment suid : String) (ts : Int) (rest : List String)
    (hne : ¬ (comment = ""))
    (hcont : containsSub comment commentTag = true)
    (hstrip : pyStrip (pyStripChars "*/" (pyStripChars "/*" (pyStrip comment))) = comment)
    (hstart : pyStartsWith comment (commentTag ++ ":") = true)
    (hsplit : pySplitCh ':' comment = commentTag :: suid :: intRepr ts :: rest) :
    parse_comment comment =
      some (suid, ts,
        (if (match rest.getLast? with
              | some lastPart =>
                if lastPart = "NOT_DELETE" then (true, rest.dropLast) else (false, rest)
              | none => (false, rest)).2.isEmpty then none
         else some (pyJoinColon
            (match rest.getLast? with
             | some lastPart =>
               if lastPart = "NOT_DELETE" then (true, rest.dropLast) else (false, rest)
             | none => (false, rest)).2)),
        (match rest.getLast? with
         | some lastPart =>
           if lastPart = "NOT_DELETE" then (true, rest.dropLast) else (false, rest)
         | none => (false, rest)).1) := by
  rw [parse_comment]
  rw [if_neg (by simp [hne, hcont])]
  simp only [hstrip, hstart, Bool.not_true, Bool.false_eq_true, if_false, hsplit,
    pyInt_intRepr]

theorem mk_data (s : String) : String.mk s.data = s := rfl

theorem data_map_mk (l : List (List Char)) : (l.map String.mk).map String.data = l := by
  induction l with
  | nil => rfl
  | cons x xs ih => simp [ih]

theorem pyJoinColon_map_mk (l : List (List Char)) :
    pyJoinColon (l.map String.mk) = String.mk (joinCh ':' l) := by
  rw [pyJoinColon, data_map_mk]

/-- Core of the round-trip: any comment whose character data has the encoded
shape, whose final character survives the strip pipeline, and whose trailing
part splits as stated, parses to the code's tail computation. -/
theorem comment_roundtrip_core (c suid : String) (ts : Int) (W : List Char)
    (tailParts : List (List Char))
    (hsuid : ∀ ch ∈ suid.data, ch ≠ ':')
    (hdata : c.data = commentTag.data ++ (':' :: (suid.data ++ (':' ::
      ((intRepr ts).data ++ W)))))
    (hW : splitAllCh ':' ((intRepr ts).data ++ W) = (intRepr ts).data :: tailParts)
    (hlast : ∀ ch, c.data.getLast? = some ch → okCommentEnd ch = true) :
    parse_comment c =
      some (suid, ts,
        (if (match (tailParts.map String.mk).getLast? with
              | some lastPart =>
                if lastPart = "NOT_DELETE" then (true, (tailParts.map String.mk).dropLast)
                else (false, tailParts.map String.mk)
              | none => (false, tailParts.map String.mk)).2.isEmpty then none
         else some (pyJoinColon
            (match (tailParts.map String.mk).getLast? with
             | some lastPart =>
               if lastPart = "NOT_DELETE" then (true, (tailParts.map String.mk).dropLast)
               else (false, tailParts.map String.mk)
             | none => (false, tailParts.map String.mk)).2)),
        (match (tailParts.map String.mk).getLast? with
         | some lastPart =>
           if lastPart = "NOT_DELETE" then (true, (tailParts.map String.mk).dropLast)
           else (false, tailParts.map String.mk)
         | none => (false, tailParts.map String.mk)).1) := by
  have hTagNC : ∀ ch ∈ commentTag.data, ch ≠ ':' := by decide
  have hne : ¬ (c = "") := string_ne_empty c (by
    rw [hdata]
    exact List.cons_ne_nil 'S' _)
  have hhead : ∀ ch, c.data.head? = some ch → okCommentEnd ch = true := by
    intro ch hch
    rw [hdata] at hch
    have h3 : some 'S' = some ch := hch
    obtain rfl := Option.some.inj h3
    decide
  have hcont : containsSub c commentTag = true := by
    rw [containsSub, hdata]
    exact containsSubL_of_startsWithL _ _ (startsWithL_append_self commentTag.data _)
  have hstrip := parse_strip_id c hhead hlast
  have hstart : pyStartsWith c (commentTag ++ ":") = true := by
    rw [pyStartsWith]
    have hx : (commentTag ++ ":").data = commentTag.data ++ [':'] := rfl
    have hassoc : commentTag.data ++ (':' :: (suid.data ++ (':' ::
        ((intRepr ts).data ++ W)))) =
        (commentTag.data ++ [':']) ++ (suid.data ++ (':' ::
          ((intRepr ts).data ++ W))) := by simp
    rw [hx, hdata, hassoc]
    exact startsWithL_append_self _ _
  have hsplit : pySplitCh ':' c =
      commentTag :: suid :: intRepr ts :: tailParts.map String.mk := by
    rw [pySplitCh, hdata, splitAllCh_append_general,
      splitAllCh_no_sep ':' commentTag.data hTagNC, splitAllCh_append_general,
      splitAllCh_no_sep ':' suid.data hsuid, hW]
    simp [mk_data]
  exact parse_comment_of_parts c suid ts (tailParts.map String.mk) hne hcont hstrip
    hstart hsplit

/-- C3 (amended): encoding then decoding yields the original tuple whenever
the session id contains no colon and the extra field is either absent or a
nonempty string which, when the rule is not preserved, neither has
`NOT_DELETE` as its last colon-segment nor ends in a character eaten by the
strip pipeline; and decoding any string that does not contain the tag prefix
anywhere yields none. -/
theorem c3_amended_roundtrip (suid : String) (ts : Int) (extra : Option String)
    (preserve : Bool)
    (hsuid : ∀ c ∈ suid.data, c ≠ ':')
    (hextra : ExtraOK extra preserve) :
    parse_comment (comment_for suid ts extra preserve) = some (suid, ts, extra, preserve) ∧
    (∀ s : String, containsSub s commentTag = false → parse_comment s = none) := by
  have hsecond : ∀ s : String, containsSub s commentTag = false → parse_comment s = none := by
    intro s hs
    rw [parse_comment]
    rw [if_pos (by simp [hs])]
  refine ⟨?_, hsecond⟩
  have hRepNC := intRepr_no_colon ts
  have hNDNC : ∀ ch ∈ ("NOT_DELETE" : String).data, ch ≠ ':' := by decide
  cases extra with
  | none =>
    cases preserve with
    | false =>
      have hdata : (comment_for suid ts none false).data =
          commentTag.data ++ (':' :: (suid.data ++ (':' ::
            ((intRepr ts).data ++ [])))) := by
        rw [comment_for_data_none_false]
        simp
      have hW : splitAllCh ':' ((intRepr ts).data ++ []) =
          (intRepr ts).data :: [] := by
        rw [List.append_nil]
        exact splitAllCh_no_sep ':' _ hRepNC
      have hlast : ∀ ch, (comment_for suid ts none false).data.getLast? = some ch →
          okCommentEnd ch = true := by
        intro ch hch
        rw [comment_for_data_none_false] at hch
        have hassoc : commentTag.data ++ (':' :: (suid.data ++ (':' ::
            (intRepr ts).data))) =
            (commentTag.data ++ [':'] ++ suid.data ++ [':']) ++ (intRepr ts).data := by
          simp
        rw [hassoc, List.getLast?_append_of_ne_nil _ (intRepr_ne_nil ts)] at hch
        exact okCommentEnd_of_digit ch (intRepr_getLast_digit ts ch hch)
      have h := comment_roundtrip_core (comment_for suid ts none false) suid ts []
        [] hsuid hdata hW hlast
      rw [h]
      simp
    | true =>
      have hdata : (comment_for suid ts none true).data =
          commentTag.data ++ (':' :: (suid.data ++ (':' ::
            ((intRepr ts).data ++ (':' :: ("NOT_DELETE" : String).data))))) :=
        comment_for_data_none_true suid ts
      have hW : splitAllCh ':' ((intRepr ts).data ++
          (':' :: ("NOT_DELETE" : String).data)) =
          (intRepr ts).data :: [("NOT_DELETE" : String).data] := by
        rw [splitAllCh_append_general, splitAllCh_no_sep ':' _ hRepNC,
          splitAllCh_no_sep ':' _ hNDNC]
        rfl
      have hlast : ∀ ch, (comment_for suid ts none true).data.getLast? = some ch →
          okCommentEnd ch = true := by
        intro ch hch
        rw [hdata] at hch
        have hassoc : commentTag.data ++ (':' :: (suid.data ++ (':' ::
            ((intRepr ts).data ++ (':' :: ("NOT_DELETE" : String).data))))) =
            (commentTag.data ++ [':'] ++ suid.data ++ [':'] ++ (intRepr ts).data ++
              [':'] ++ ("NOT_DELET" : String).data) ++ ['E'] := by
          simp
        rw [hassoc, List.getLast?_concat] at hch
        obtain rfl := Option.some.inj hch.symm
        decide
      have h := comment_roundtrip_core (comment_for suid ts none true) suid ts
        (':' :: ("NOT_DELETE" : String).data) [("NOT_DELETE" : String).data]
        hsuid hdata hW hlast
      rw [h]
      simp [mk_data]
  | some e =>
    cases preserve with
    | false =>
      obtain ⟨he, hnd, e0, lc, helc, hok⟩ := hextra
      have hdata : (comment_for suid ts (some e) false).data =
          commentTag.data ++ (':' :: (suid.data ++ (':' ::
            ((intRepr ts).data ++ (':' :: e.data))))) :=
        comment_for_data_some_false suid ts e he
      have hW : splitAllCh ':' ((intRepr ts).data ++ (':' :: e.data)) =
          (intRepr ts).data :: splitAllCh ':' e.data := by
        rw [splitAllCh_append_general, splitAllCh_no_sep ':' _ hRepNC]
        rfl
      have hlast : ∀ ch, (comment_for suid ts (some e) false).data.getLast? = some ch →
          okCommentEnd ch = true := by
        intro ch hch
        rw [hdata] at hch
        have hassoc : commentTag.data ++ (':' :: (suid.data ++ (':' ::
            ((intRepr ts).data ++ (':' :: e.data))))) =
            (commentTag.data ++ [':'] ++ suid.data ++ [':'] ++ (intRepr ts).data ++
              [':'] ++ e0) ++ [lc] := by
          simp [helc]
        rw [hassoc, List.getLast?_concat] at hch
        obtain rfl := Option.some.inj hch.symm
        exact hok
      have h := comment_roundtrip_core (comment_for suid ts (some e) false) suid ts
        (':' :: e.data) (splitAllCh ':' e.data) hsuid hdata hW hlast
      rw [h]
      rcases List.eq_nil_or_concat (splitAllCh ':' e.data) with hnil | ⟨m, a, hm⟩
      · exact absurd hnil (splitAllCh_ne_nil ':' e.data)
      · rw [List.concat_eq_append] at hm
        have hglast : ((splitAllCh ':' e.data).map String.mk).getLast? =
            some (String.mk a) := by
          rw [hm]
          simp only [List.map_append, List.map_cons, List.map_nil]
          rw [List.getLast?_concat]
        have hane : ¬ (String.mk a = "NOT_DELETE") := by
          intro hmk
          apply hnd
          rw [hm, List.getLast?_concat]
          have : a = ("NOT_DELETE" : String).data := congrArg String.data hmk
          rw [this]
        have hnonempty : ((splitAllCh ':' e.data).map String.mk).isEmpty = false := by
          rw [hm]
          simp
        rw [hglast]
        simp [hane, hnonempty, pyJoinColon_map_mk, joinCh_splitAllCh, mk_data]
    | true =>
      have he : ¬ (e = "") := hextra
      have hdata : (comment_for suid ts (some e) true).data =
          commentTag.data ++ (':' :: (suid.data ++ (':' ::
            ((intRepr ts).data ++ (':' :: (e.data ++
              (':' :: ("NOT_DELETE" : String).data))))))) :=
        comment_for_data_some_true suid ts e he
      have hW : splitAllCh ':' ((intRepr ts).data ++ (':' :: (e.data ++
          (':' :: ("NOT_DELETE" : String).data)))) =
          (intRepr ts).data :: (splitAllCh ':' e.data ++
            [("NOT_DELETE" : String).data]) := by
        rw [splitAllCh_append_general, splitAllCh_no_sep ':' _ hRepNC,
          splitAllCh_append_general, splitAllCh_no_sep ':' _ hNDNC]
        rfl
      have hlast : ∀ ch, (comment_for suid ts (some e) true).data.getLast? = some ch →
          okCommentEnd ch = true := by
        intro ch hch
        rw [hdata] at hch
        have hassoc : commentTag.data ++ (':' :: (suid.data ++ (':' ::
            ((intRepr ts).data ++ (':' :: (e.data ++
              (':' :: ("NOT_DELETE" : String).data))))))) =
            (commentTag.data ++ [':'] ++ suid.data ++ [':'] ++ (intRepr ts).data ++
              [':'] ++ e.data ++ [':'] ++ ("NOT_DELET" : String).data) ++ ['E'] := by
          simp
        rw [hassoc, List.getLast?_concat] at hch
        obtain rfl := Option.some.inj hch.symm
        decide
      have h := comment_roundtrip_core (comment_for suid ts (some e) true) suid ts
        (':' :: (e.data ++ (':' :: ("NOT_DELETE" : String).data)))
        (splitAllCh ':' e.data ++ [("NOT_DELETE" : String).data]) hsuid hdata hW hlast
      rw [h]
      have hglast : (((splitAllCh ':' e.data) ++
          [("NOT_DELETE" : String).data]).map String.mk).getLast? =
          some "NOT_DELETE" := by
        simp only [List.map_append, List.map_cons, List.map_nil]
        rw [List.getLast?_concat]
      have hdrop : (((splitAllCh ':' e.data) ++
          [("NOT_DELETE" : String).data]).map String.mk).dropLast =
          (splitAllCh ':' e.data).map String.mk := by
        simp only [List.map_append, List.map_cons, List.map_nil]
        simp
      have hnonempty : ((splitAllCh ':' e.data).map String.mk).isEmpty = false := by
        rcases List.eq_nil_or_concat (splitAllCh ':' e.data) with hnil | ⟨m, a, hm⟩
        · exact absurd hnil (splitAllCh_ne_nil ':' e.data)
        · rw [List.concat_eq_append] at hm
          rw [hm]
          simp
      rw [hglast]
      simp [hdrop, hnonempty, pyJoinColon_map_mk, joinCh_splitAllCh, mk_data]

/-- C3 (witness): the amended round-trip evaluated on a concrete tuple whose
extra field contains a colon. -/
theorem c3_amended_witness :
    parse_comment (comment_for "ab12" 5 (some "x:y") true) =
      some ("ab12", 5, some "x:y", true) :=
  (c3_amended_roundtrip "ab12" 5 (some "x:y") true (by decide)
    (show ("x:y" : String) ≠ "" by decide)).1

/-- C3 (counterexample): encoding the tuple `("ab12", 5, some "NOT_DELETE",
false)` and decoding it yields `("ab12", 5, none, true)` — not the original
tuple; and the rendered form `/* Stormshadow:ab:1 */`, which does not start
with the tag prefix, decodes to a full result rather than "not ours". -/
theorem c3_counterexample :
    parse_comment (comment_for "ab12" 5 (some "NOT_DELETE") false) =
      some ("ab12", 5, none, true) ∧
    pyStartsWith "/* Stormshadow:ab:1 */" commentTag = false ∧
    parse_comment "/* Stormshadow:ab:1 */" = some ("ab", 1, none, false) :=
  ⟨rfl, rfl, rfl⟩

/-! ### Lemmas about rule removal and the firewall state -/

theorem lookupChain_map_update (key : String × String) (f : List String → List String) :
    ∀ (chains : List ((String × String) × List String)) (lines : List String),
      lookupChain key chains = some lines →
      lookupChain key (chains.map (fun c => if c.1 = key then (c.1, f c.2) else c)) =
        some (f lines) := by
  intro chains
  induction chains with
  | nil => intro lines h; simp [lookupChain] at h
  | cons c rest ih =>
    intro lines h
    by_cases hc : c.1 = key
    · rw [lookupChain, if_pos hc] at h
      obtain rfl := Option.some.inj h
      simp only [List.map_cons, if_pos hc, lookupChain]
    · rw [lookupChain, if_neg hc] at h
      simp only [List.map_cons, if_neg hc, lookupChain]
      exact ih lines h

theorem lookupChain_map_update_ne (key k2 : String × String) (hk : ¬ (k2 = key))
    (f : List String → List String) :
    ∀ chains, lookupChain k2
        (chains.map (fun c => if c.1 = key then (c.1, f c.2) else c)) =
      lookupChain k2 chains := by
  intro chains
  induction chains with
  | nil => rfl
  | cons c rest ih =>
    by_cases hc : c.1 = key
    · have hck : ¬ (c.1 = k2) := by
        intro h
        exact hk (h ▸ hc)
      simp only [List.map_cons, if_pos hc, lookupChain, if_neg hck]
      exact ih
    · simp only [List.map_cons, if_neg hc, lookupChain]
      by_cases hck : c.1 = k2
      · simp only [if_pos hck]
      · simp only [if_neg hck]
        exact ih

theorem lookupChain_updateChain_same (st : IptablesState) (key : String × String)
    (f : List String → List String) (lines : List String)
    (h : lookupChain key st.chains = some lines) :
    lookupChain key (updateChain key f st).chains = some (f lines) :=
  lookupChain_map_update key f st.chains lines h

theorem lookupChain_updateChain_ne (st : IptablesState) (key k2 : String × String)
    (hk : ¬ (k2 = key)) (f : List String → List String) :
    lookupChain k2 (updateChain key f st).chains = lookupChain k2 st.chains :=
  lookupChain_map_update_ne key k2 hk f st.chains

theorem eraseLine_append_of_ne (line : String) (done rest : List String)
    (h : ∀ l ∈ done, ¬ (l = line)) :
    eraseLine line (done ++ line :: rest) = done ++ rest := by
  induction done with
  | nil => simp [eraseLine]
  | cons d ds ih =>
    rw [List.cons_append, eraseLine, if_neg (h d (by simp))]
    rw [ih (fun l hl => h l (by simp [hl]))]
    rfl

/-- Characterisation of the delete loop of `remove_rules_for_suid`: starting
from a chain listing `done ++ pending` where the already-scanned `done` lines
do not match, deleting the matching pending lines leaves exactly the
non-matching lines, and counts the matching ones. -/
theorem remove_rules_foldl (suid table chain : String) :
    ∀ (pending done : List String) (st : IptablesState) (n : Nat),
      (∀ l ∈ done, lineMatchesSuid suid l = false) →
      lookupChain (table, chain) st.chains = some (done ++ pending) →
      lookupChain (table, chain)
          (pending.foldl (fun acc line =>
            if lineMatchesSuid suid line then
              (updateChain (table, chain) (eraseLine line) acc.1, acc.2 + 1)
            else acc) (st, n)).1.chains =
        some (done ++ pending.filter (fun l => !(lineMatchesSuid suid l))) ∧
      (pending.foldl (fun acc line =>
          if lineMatchesSuid suid line then
            (updateChain (table, chain) (eraseLine line) acc.1, acc.2 + 1)
          else acc) (st, n)).2 =
        n + pending.countP (fun l => lineMatchesSuid suid l) := by
  intro pending
  induction pending with
  | nil =>
    intro done st n hdone hst
    constructor
    · simpa using hst
    · simp
  | cons l rest ih =>
    intro done st n hdone hst
    cases hm : lineMatchesSuid suid l with
    | true =>
      have hne : ∀ d ∈ done, ¬ (d = l) := by
        intro d hd heq
        have hd2 := hdone d hd
        rw [heq, hm] at hd2
        exact absurd hd2 (by simp)
      have hlook : lookupChain (table, chain)
          (updateChain (table, chain) (eraseLine l) st).chains =
          some (done ++ rest) := by
        rw [lookupChain_updateChain_same st _ _ _ hst,
          eraseLine_append_of_ne l done rest hne]
      have h2 := ih done (updateChain (table, chain) (eraseLine l) st) (n + 1)
        hdone hlook
      simp only [List.foldl_cons, hm, if_true]
      refine ⟨?_, ?_⟩
      · rw [h2.1]
        simp [List.filter_cons, hm]
      · rw [h2.2, List.countP_cons, hm]
        simp
        omega
    | false =>
      have hdone2 : ∀ x ∈ done ++ [l], lineMatchesSuid suid x = false := by
        intro x hx
        rcases List.mem_append.mp hx with hx | hx
        · exact hdone x hx
        · simp at hx
          rw [hx, hm]
      have hst2 : lookupChain (table, chain) st.chains =
          some ((done ++ [l]) ++ rest) := by
        rw [hst]
        simp
      have h2 := ih (done ++ [l]) st n hdone2 hst2
      simp only [List.foldl_cons, hm, Bool.false_eq_true, if_false]
      refine ⟨?_, ?_⟩
      · rw [h2.1]
        simp [List.filter_cons, hm]
      · rw [h2.2, List.countP_cons, hm]
        simp

/-- `remove_rules_for_suid` keeps exactly the listed lines that do not match
the substring test, and returns the number of matching lines. -/
theorem remove_rules_spec (suid table chain : String) (st : IptablesState)
    (lines : List String)
    (h : lookupChain (table, chain) st.chains = some lines) :
    lookupChain (table, chain)
        (remove_rules_for_suid suid table chain st).1.chains =
      some (lines.filter (fun l => !(lineMatchesSuid suid l))) ∧
    (remove_rules_for_suid suid table chain st).2 =
      lines.countP (fun l => lineMatchesSuid suid l) := by
  have hS : iptables_S st table chain = lines := by
    rw [iptables_S, h]
  have h2 := remove_rules_foldl suid table chain lines [] st 0 (by simp)
    (by simpa using h)
  rw [remove_rules_for_suid, hS]
  simpa using h2

/-! ### Lemmas about tagged rule lines -/

theorem comment_for_empty_extra (suid : String) (ts : Int) (preserve : Bool) :
    comment_for suid ts (some "") preserve = comment_for suid ts none preserve := by
  rw [comment_for, comment_for]
  simp

theorem comment_for_shape (suid : String) (ts : Int) (extra : Option String)
    (preserve : Bool) :
    ∃ tail, (comment_for suid ts extra preserve).data =
      commentTag.data ++ (':' :: (suid.data ++ (':' :: tail))) := by
  cases extra with
  | none =>
    cases preserve with
    | false => exact ⟨_, comment_for_data_none_false suid ts⟩
    | true => exact ⟨_, comment_for_data_none_true suid ts⟩
  | some e =>
    by_cases he : e = ""
    · subst he
      rw [comment_for_empty_extra]
      cases preserve with
      | false => exact ⟨_, comment_for_data_none_false suid ts⟩
      | true => exact ⟨_, comment_for_data_none_true suid ts⟩
    · cases preserve with
      | false => exact ⟨_, comment_for_data_some_false suid ts e he⟩
      | true => exact ⟨_, comment_for_data_some_true suid ts e he⟩

theorem containsSub_of_shape (s pat : String) (x y : List Char)
    (h : s.data = x ++ (pat.data ++ y)) : containsSub s pat = true := by
  rw [containsSub, h]
  exact containsSubL_append_left _ _ _
    (containsSubL_of_startsWithL _ _ (startsWithL_append_self _ _))

/-- Every line rendered for a session satisfies the substring ownership test
of `remove_rules_for_suid` for that session's id. -/
theorem isTaggedLine_matches (suid line : String) (h : IsTaggedLine suid line) :
    lineMatchesSuid suid line = true := by
  obtain ⟨pre, ts, extra, preserve, post, rfl⟩ := h
  obtain ⟨tail, htail⟩ := comment_for_shape suid ts extra preserve
  have hdata : (ruleLine pre (comment_for suid ts extra preserve) post).data =
      pre.data ++ ((" -m comment --comment \"" : String).data ++
        ((comment_for suid ts extra preserve).data ++
          (("\" " : String).data ++ post.data))) := by
    rw [ruleLine]
    simp [String.data_append]
  have hm1 : (" -m comment --comment \"" : String).data =
      [' '] ++ (("-m comment --comment" : String).data ++ [' ', '"']) := rfl
  rw [lineMatchesSuid]
  simp only [Bool.and_eq_true]
  refine ⟨⟨?_, ?_⟩, ?_⟩
  · refine containsSub_of_shape _ _ (pre.data ++ [' '])
      ([' ', '"'] ++ ((comment_for suid ts extra preserve).data ++
        (("\" " : String).data ++ post.data))) ?_
    rw [hdata, hm1]
    simp
  · refine containsSub_of_shape _ _
      (pre.data ++ (" -m comment --comment \"" : String).data)
      ((':' :: (suid.data ++ (':' :: tail))) ++
        (("\" " : String).data ++ post.data)) ?_
    rw [hdata, htail]
    simp
  · refine containsSub_of_shape _ _
      (pre.data ++ (" -m comment --comment \"" : String).data ++
        commentTag.data ++ [':'])
      ((':' :: tail) ++ (("\" " : String).data ++ post.data)) ?_
    rw [hdata, htail]
    simp

/-- C7 (amended): when every line of the chain is tagged for session A or
session B and A's id occurs as a substring of no B-tagged line, removing A's
rules keeps exactly the lines failing the substring test; all of A's lines
match the test (hence are removed), every surviving line is B-tagged, each
B-tagged line survives with its multiplicity unchanged, and the returned
count is the number of matching lines. -/
theorem c7_amended_ownership_isolation (A B : String) (lines : List String)
    (st : IptablesState)
    (hst : lookupChain ("filter", stormshadowChain) st.chains = some lines)
    (hpart : ∀ l ∈ lines, IsTaggedLine A l ∨ IsTaggedLine B l)
    (hBfree : ∀ l ∈ lines, IsTaggedLine B l → containsSub l A = false) :
    lookupChain ("filter", stormshadowChain)
        (remove_rules_for_suid A "filter" stormshadowChain st).1.chains =
      some (lines.filter (fun l => !(lineMatchesSuid A l))) ∧
    (∀ l ∈ lines, IsTaggedLine A l → lineMatchesSuid A l = true) ∧
    (∀ l ∈ lines.filter (fun l2 => !(lineMatchesSuid A l2)), IsTaggedLine B l) ∧
    (∀ l ∈ lines, IsTaggedLine B l →
      (lines.filter (fun l2 => !(lineMatchesSuid A l2))).count l = lines.count l) ∧
    (remove_rules_for_suid A "filter" stormshadowChain st).2 =
      lines.countP (fun l => lineMatchesSuid A l) := by
  have hspec := remove_rules_spec A "filter" stormshadowChain st lines hst
  have hBnot : ∀ l ∈ lines, IsTaggedLine B l → lineMatchesSuid A l = false := by
    intro l hl hB
    have hfree := hBfree l hl hB
    rw [lineMatchesSuid, hfree]
    simp
  refine ⟨hspec.1, ?_, ?_, ?_, hspec.2⟩
  · intro l _ hA
    exact isTaggedLine_matches A l hA
  · intro l hl
    have hmem := List.mem_filter.mp hl
    rcases hpart l hmem.1 with hA | hB
    · have := isTaggedLine_matches A l hA
      rw [this] at hmem
      simp at hmem
    · exact hB
  · intro l hl hB
    apply List.count_filter
    rw [hBnot l hl hB]
    rfl

/-- C7 (witness): the amended statement evaluated on a concrete state with
one rule of session `aa` and one rule of session `bb`: only `aa`'s rule is
removed and the re-listing is exactly `bb`'s rule. -/
theorem c7_amended_witness :
    lookupChain ("filter", stormshadowChain)
        (remove_rules_for_suid "aa" "filter" stormshadowChain c7wState).1.chains =
      some [c7wLineB] ∧
    (remove_rules_for_suid "aa" "filter" stormshadowChain c7wState).2 = 1 := by
  have h := c7_amended_ownership_isolation "aa" "bb" [c7wLineA, c7wLineB] c7wState rfl
    (by
      intro l hl
      rcases List.mem_cons.mp hl with rfl | hl
      · exact Or.inl ⟨"-A STORMSHADOW -p udp", 5, none, false, "-j NFQUEUE --queue-num 1", rfl⟩
      · rcases List.mem_cons.mp hl with rfl | hl
        · exact Or.inr ⟨"-A STORMSHADOW -p udp", 7, none, false, "-j NFQUEUE --queue-num 2", rfl⟩
        · simp at hl)
    (by
      intro l hl hB
      rcases List.mem_cons.mp hl with rfl | hl
      · exact absurd (isTaggedLine_matches "bb" c7wLineA hB) (by decide)
      · rcases List.mem_cons.mp hl with rfl | hl
        · decide
        · simp at hl)
  refine ⟨?_, ?_⟩
  · have h1 := h.1
    rw [show ([c7wLineA, c7wLineB].filter (fun l => !(lineMatchesSuid "aa" l))) =
      [c7wLineB] by decide] at h1
    exact h1
  · have h5 := h.2.2.2.2
    rw [show ([c7wLineA, c7wLineB].countP (fun l => lineMatchesSuid "aa" l)) = 1
      by decide] at h5
    exact h5

/-! ### Lemmas for the preserved-rule survival property (C4) -/

theorem okPostEdge_split (ch : Char) (h : okPostEdge ch = true) :
    isPySpace ch = false ∧ ¬ (ch = ' ') ∧ (("'\"" : String).data.contains ch = false) := by
  simp only [okPostEdge] at h
  have h1 : (isPySpace ch || ch = '\'' || ch = '"') = false := by
    cases hx : (isPySpace ch || ch = '\'' || ch = '"')
    · rfl
    · rw [hx] at h
      exact absurd h (by decide)
  simp only [Bool.or_eq_false_iff, decide_eq_false_iff_not] at h1
  refine ⟨h1.1.1, ?_, ?_⟩
  · intro he
    rw [he] at h1
    exact absurd h1.1.1 (by decide)
  · have hd : (("'\"" : String).data) = ['\'', '"'] := rfl
    rw [hd]
    simp [h1.1.2, h1.2]

/-- Under the well-formedness conditions, the split-based comment extraction of
the dedicated-chain sweep returns the rule text AFTER the quoted comment,
which never contains the comment tag. -/
theorem extract_split_of_good (line : String) (hg : GoodDedicatedLine line) :
    ∃ post : List Char, extractCommentSplit line = String.mk post ∧
      containsSubL commentTag.data post = false := by
  obtain ⟨pre, c, post, hdata, hnc, hcws, hpost, hpne, hph, hpl⟩ := hg
  refine ⟨post, ?_, hpost⟩
  have hheadPall : ∀ ch2, post.head? = some ch2 → okPostEdge ch2 = true := by
    intro ch2 hc2
    rw [hc2] at hph
    exact hph
  have hlastPall : ∀ ch2, post.getLast? = some ch2 → okPostEdge ch2 = true := by
    intro ch2 hc2
    rw [hc2] at hpl
    exact hpl
  rcases List.eq_nil_or_concat post with hnil | ⟨p0, plast, hpconcat⟩
  · exact absurd hnil hpne
  rw [List.concat_eq_append] at hpconcat
  have hgl : post.getLast? = some plast := by
    rw [hpconcat]
    exact List.getLast?_concat _
  have hlastP : okPostEdge plast = true := hlastPall plast hgl
  have hxeq : pre ++ (" -m comment " : String).data =
      (pre ++ (" -m comment" : String).data) ++ [' '] := by
    rw [show (" -m comment " : String).data = (" -m comment" : String).data ++ [' '] from rfl]
    rw [List.append_assoc]
  have hre : line.data = pre ++ (" -m comment " : String).data ++
      ("--comment" : String).data ++ (' ' :: '"' :: (c ++ '"' :: ' ' :: post)) := by
    rw [hdata]
    rw [show (" -m comment --comment \"" : String).data =
      (" -m comment " : String).data ++ (("--comment" : String).data ++ [' ', '"']) from rfl]
    simp
  have hsplit1 : splitOneSub (("--comment" : String).data) line.data =
      [pre ++ (" -m comment " : String).data, ' ' :: '"' :: (c ++ '"' :: ' ' :: post)] := by
    rw [hre]
    exact splitOneSub_boundary (("--comment" : String).data)
      (' ' :: '"' :: (c ++ '"' :: ' ' :: post)) ' ' (by decide) (by decide)
      (pre ++ (" -m comment " : String).data) hnc
      ⟨pre ++ (" -m comment" : String).data, hxeq⟩
  have hps : pySplitOneSub "--comment" line =
      [String.mk (pre ++ (" -m comment " : String).data),
       String.mk (' ' :: '"' :: (c ++ '"' :: ' ' :: post))] := by
    show (splitOneSub (("--comment" : String).data) line.data).map String.mk = _
    rw [hsplit1]
    rfl
  have hshape : '"' :: (c ++ '"' :: ' ' :: post) =
      ('"' :: (c ++ '"' :: ' ' :: p0)) ++ [plast] := by
    rw [hpconcat]
    simp
  have hstrip1 : pyStripBy isPySpace (' ' :: '"' :: (c ++ '"' :: ' ' :: post)) =
      '"' :: (c ++ '"' :: ' ' :: post) := by
    simp only [pyStripBy]
    rw [show (' ' :: '"' :: (c ++ '"' :: ' ' :: post)).dropWhile isPySpace =
      '"' :: (c ++ '"' :: ' ' :: post) from rfl]
    rw [hshape]
    exact trimEndBy_concat isPySpace _ plast (okPostEdge_split plast hlastP).1
  have hps2 : (pyStrip (String.mk (' ' :: '"' :: (c ++ '"' :: ' ' :: post)))).data =
      '"' :: (c ++ '"' :: ' ' :: post) := hstrip1
  have hu : ∀ ch2 ∈ ('"' :: (c ++ ['"'])), ch2 ≠ ' ' := by
    intro ch2 hch2
    rcases List.mem_cons.mp hch2 with rfl | hch3
    · decide
    · rcases List.mem_append.mp hch3 with hmc | hq
      · intro he
        have h5 := hcws ch2 hmc
        rw [he] at h5
        exact absurd h5 (by decide)
      · have h6 : ch2 = '"' := by simpa using hq
        rw [h6]
        decide
  have hz : '"' :: (c ++ '"' :: ' ' :: post) = ('"' :: (c ++ ['"'])) ++ (' ' :: post) := by
    simp
  have hsplit2 : splitOneCh ' ' ('"' :: (c ++ '"' :: ' ' :: post)) =
      ['"' :: (c ++ ['"']), post] := by
    rw [hz]
    exact splitOneCh_boundary ' ' ('"' :: (c ++ ['"'])) post hu
  have hpost_strip : pyStrip (String.mk post) = String.mk post := by
    apply pyStrip_id
    · intro ch2 hc2
      exact (okPostEdge_split ch2 (hheadPall ch2 hc2)).1
    · intro ch2 hc2
      exact (okPostEdge_split ch2 (hlastPall ch2 hc2)).1
  have hpost_stripc : pyStripChars "'\"" (String.mk post) = String.mk post := by
    apply pyStripChars_id
    · intro ch2 hc2
      exact (okPostEdge_split ch2 (hheadPall ch2 hc2)).2.2
    · intro ch2 hc2
      exact (okPostEdge_split ch2 (hlastPall ch2 hc2)).2.2
  unfold extractCommentSplit
  simp only [hps, hps2, hsplit2]
  rw [hpost_strip]
  exact hpost_stripc

/-- For a well-formed dedicated-chain line the sweep's extracted text never
parses as a StormShadow comment, so the removal decision keeps it. -/
theorem should_remove_of_good (now ttl : Int) (hb : List (String × Int)) (line : String)
    (hg : GoodDedicatedLine line) :
    should_remove now ttl hb (extractCommentSplit line) = none := by
  obtain ⟨post, hext, hpost⟩ := extract_split_of_good line hg
  rw [hext]
  have h7 : containsSub (String.mk post) commentTag = false := hpost
  have hpc : parse_comment (String.mk post) = none := by
    unfold parse_comment
    rw [h7]
    simp
  unfold should_remove
  rw [hpc]

theorem foldl_id_of_mem {α β : Type} (f : β → α → β) :
    ∀ (xs : List α), (∀ b x, x ∈ xs → f b x = b) → ∀ b, xs.foldl f b = b := by
  intro xs
  induction xs with
  | nil => intro _ b; rfl
  | cons x rest ih =>
    intro h b
    rw [List.foldl_cons, h b x (List.mem_cons_self ..)]
    exact ih (fun b2 y hy => h b2 y (List.mem_cons_of_mem _ hy)) b

theorem foldl_count_S {α : Type} (f : (IptablesState × Nat) → α → (IptablesState × Nat))
    (l tbl ch : String)
    (hf : ∀ acc x, List.count l (iptables_S (f acc x).1 tbl ch) =
        List.count l (iptables_S acc.1 tbl ch)) :
    ∀ (xs : List α) (acc : IptablesState × Nat),
      List.count l (iptables_S (xs.foldl f acc).1 tbl ch) =
        List.count l (iptables_S acc.1 tbl ch) := by
  intro xs
  induction xs with
  | nil => intro acc; rfl
  | cons x rest ih =>
    intro acc
    rw [List.foldl_cons, ih (f acc x), hf acc x]

theorem foldl_S_eq {α : Type} (f : (IptablesState × Nat) → α → (IptablesState × Nat))
    (tbl ch : String)
    (hf : ∀ acc x, iptables_S (f acc x).1 tbl ch = iptables_S acc.1 tbl ch) :
    ∀ (xs : List α) (acc : IptablesState × Nat),
      iptables_S (xs.foldl f acc).1 tbl ch = iptables_S acc.1 tbl ch := by
  intro xs
  induction xs with
  | nil => intro acc; rfl
  | cons x rest ih =>
    intro acc
    rw [List.foldl_cons, ih (f acc x), hf acc x]

theorem eraseLine_count_ne (l x : String) (xs : List String) (h : ¬ (l = x)) :
    List.count l (eraseLine x xs) = List.count l xs := by
  induction xs with
  | nil => rfl
  | cons y rest ih =>
    simp only [eraseLine]
    by_cases hy : y = x
    · rw [if_pos hy, List.count_cons]
      have hly : ¬ (l = y) := fun he => h (he.trans hy)
      have hyl : ¬ (y = l) := fun he => hly he.symm
      simp [hly, hyl]
    · rw [if_neg hy, List.count_cons, List.count_cons, ih]

theorem map_update_of_lookup_none (key : String × String) (f : List String → List String) :
    ∀ cs, lookupChain key cs = none →
      cs.map (fun c => if c.1 = key then (c.1, f c.2) else c) = cs := by
  intro cs
  induction cs with
  | nil => intro _; rfl
  | cons c rest ih =>
    intro h
    rw [lookupChain] at h
    by_cases hc : c.1 = key
    · rw [if_pos hc] at h
      exact absurd h (by simp)
    · rw [if_neg hc] at h
      rw [List.map_cons, if_neg hc, ih h]

theorem updateChain_of_lookup_none (key : String × String) (f : List String → List String)
    (st : IptablesState) (h : lookupChain key st.chains = none) :
    updateChain key f st = st := by
  unfold updateChain
  rw [map_update_of_lookup_none key f st.chains h]

theorem iptablesS_updateChain_ne (st : IptablesState) (key : String × String)
    (f : List String → List String) (tbl ch : String) (hk : ¬ ((tbl, ch) = key)) :
    iptables_S (updateChain key f st) tbl ch = iptables_S st tbl ch := by
  unfold iptables_S
  rw [lookupChain_updateChain_ne st key (tbl, ch) hk f]

theorem count_step_updateChain (st : IptablesState) (key : String × String)
    (x l tbl ch : String) (h : ¬ (l = x)) :
    List.count l (iptables_S (updateChain key (eraseLine x) st) tbl ch) =
      List.count l (iptables_S st tbl ch) := by
  by_cases hk : (tbl, ch) = key
  · subst hk
    cases hlk : lookupChain (tbl, ch) st.chains with
    | none =>
      rw [updateChain_of_lookup_none (tbl, ch) (eraseLine x) st hlk]
    | some lines =>
      have h1 : iptables_S (updateChain (tbl, ch) (eraseLine x) st) tbl ch =
          eraseLine x lines := by
        unfold iptables_S
        rw [lookupChain_updateChain_same st (tbl, ch) (eraseLine x) lines hlk]
      have h2 : iptables_S st tbl ch = lines := by
        unfold iptables_S
        rw [hlk]
      rw [h1, h2]
      exact eraseLine_count_ne l x lines h
  · rw [iptablesS_updateChain_ne st key (eraseLine x) tbl ch hk]

theorem gcAnchor_step_count (now ttl : Int) (hb : List (String × Int)) (chainName : String)
    (l tbl ch : String)
    (HK : ∀ c2, extractCommentRegex l = some c2 → should_remove now ttl hb c2 = none)
    (acc : IptablesState × Nat) (x : String) :
    List.count l (iptables_S
      (if containsSub x ("-j " ++ stormshadowChain) &&
          containsSub x "-m comment --comment" && containsSub x commentTag then
        match extractCommentRegex x with
        | some ctext =>
          match should_remove now ttl hb ctext with
          | some _ => (updateChain ("filter", chainName) (eraseLine x) acc.1, acc.2 + 1)
          | none => acc
        | none => acc
      else acc).1 tbl ch) = List.count l (iptables_S acc.1 tbl ch) := by
  split
  · split
    · rename_i ctext heq
      split
      · rename_i cand heq2
        have hne : ¬ (l = x) := by
          intro he
          rw [← he] at heq
          rw [HK ctext heq] at heq2
          exact absurd heq2 (by simp)
        exact count_step_updateChain acc.1 ("filter", chainName) x l tbl ch hne
      · rfl
    · rfl
  · rfl

theorem gcAnchor_step_frame (now ttl : Int) (hb : List (String × Int)) (chainName : String)
    (tbl ch : String) (hk : ¬ ((tbl, ch) = ("filter", chainName)))
    (acc : IptablesState × Nat) (x : String) :
    iptables_S
      (if containsSub x ("-j " ++ stormshadowChain) &&
          containsSub x "-m comment --comment" && containsSub x commentTag then
        match extractCommentRegex x with
        | some ctext =>
          match should_remove now ttl hb ctext with
          | some _ => (updateChain ("filter", chainName) (eraseLine x) acc.1, acc.2 + 1)
          | none => acc
        | none => acc
      else acc).1 tbl ch = iptables_S acc.1 tbl ch := by
  split
  · split
    · split
      · exact iptablesS_updateChain_ne acc.1 ("filter", chainName) _ tbl ch hk
      · rfl
    · rfl
  · rfl

/-- The anchor phase never changes how often a line whose extracted comment is
kept by the removal decision occurs in any chain. -/
theorem gcAnchorChain_count (now ttl : Int) (hb : List (String × Int)) (chainName : String)
    (l tbl ch : String)
    (HK : ∀ c2, extractCommentRegex l = some c2 → should_remove now ttl hb c2 = none)
    (acc : IptablesState × Nat) :
    List.count l (iptables_S (gcAnchorChain now ttl hb chainName acc).1 tbl ch) =
      List.count l (iptables_S acc.1 tbl ch) := by
  have h := foldl_count_S
    (fun (a : IptablesState × Nat) (line : String) =>
      if containsSub line ("-j " ++ stormshadowChain) &&
          containsSub line "-m comment --comment" && containsSub line commentTag then
        match extractCommentRegex line with
        | some ctext =>
          match should_remove now ttl hb ctext with
          | some _ => (updateChain ("filter", chainName) (eraseLine line) a.1, a.2 + 1)
          | none => a
        | none => a
      else a)
    l tbl ch
    (fun a line => gcAnchor_step_count now ttl hb chainName l tbl ch HK a line)
    (iptables_S acc.1 "filter" chainName) acc
  exact h

/-- The anchor phase only edits the `(filter, chainName)` chain: every other
chain's listing is unchanged. -/
theorem gcAnchorChain_frame (now ttl : Int) (hb : List (String × Int)) (chainName : String)
    (tbl ch : String) (hk : ¬ ((tbl, ch) = ("filter", chainName)))
    (acc : IptablesState × Nat) :
    iptables_S (gcAnchorChain now ttl hb chainName acc).1 tbl ch =
      iptables_S acc.1 tbl ch := by
  have h := foldl_S_eq
    (fun (a : IptablesState × Nat) (line : String) =>
      if containsSub line ("-j " ++ stormshadowChain) &&
          containsSub line "-m comment --comment" && containsSub line commentTag then
        match extractCommentRegex line with
        | some ctext =>
          match should_remove now ttl hb ctext with
          | some _ => (updateChain ("filter", chainName) (eraseLine line) a.1, a.2 + 1)
          | none => a
        | none => a
      else a)
    tbl ch
    (fun a line => gcAnchor_step_frame now ttl hb chainName tbl ch hk a line)
    (iptables_S acc.1 "filter" chainName) acc
  exact h

theorem gcDedicated_step_id (now ttl : Int) (hb : List (String × Int))
    (table chain : String) (b : IptablesState × Nat) (x : String)
    (hg : GoodDedicatedLine x) :
    (if containsSub x "-m comment --comment" && containsSub x commentTag then
       match should_remove now ttl hb (extractCommentSplit x) with
       | some candidate =>
         let r := remove_rules_for_suid candidate table chain b.1
         (r.1, b.2 + r.2)
       | none => b
     else b) = b := by
  rw [should_remove_of_good now ttl hb x hg]
  split <;> rfl

/-- When every line of a dedicated chain is well formed, the dedicated-chain
sweep of `cleanup_stale_rules` does nothing at all. -/
theorem gcDedicatedChain_id (now ttl : Int) (hb : List (String × Int))
    (table chain : String) (acc : IptablesState × Nat)
    (hgood : ∀ x ∈ iptables_S acc.1 table chain, GoodDedicatedLine x) :
    gcDedicatedChain now ttl hb table chain acc = acc := by
  have h := foldl_id_of_mem
    (fun (b : IptablesState × Nat) (line : String) =>
      if containsSub line "-m comment --comment" && containsSub line commentTag then
        match should_remove now ttl hb (extractCommentSplit line) with
        | some candidate =>
          let r := remove_rules_for_suid candidate table chain b.1
          (r.1, b.2 + r.2)
        | none => b
      else b)
    (iptables_S acc.1 table chain)
    (fun b line hl => gcDedicated_step_id now ttl hb table chain b line (hgood line hl))
    acc
  exact h

/-- C4: a rule tagged with `preserve=True` (`NOT_DELETE`) is never removed by
the garbage collector.  For a firewall state whose dedicated chains hold only
well-formed `iptables -S` lines, any line whose regex-extracted comment decodes
with the preserve flag occurs exactly as often in every chain after
`cleanup_stale_rules` as before: the anchor phase skips it because
`should_remove` returns `None` on preserve, and the dedicated-chain sweeps
remove nothing because their split-based extraction never yields a parsable
comment. -/
theorem c4_preserved_rule_survives_gc (now ttl : Int) (d : HbDir) (st : IptablesState)
    (tbl ch l ctext suid2 : String) (ts : Int) (extra : Option String)
    (hfil : ∀ x ∈ iptables_S st "filter" stormshadowChain, GoodDedicatedLine x)
    (hnat : ∀ x ∈ iptables_S st "nat" stormshadowNatChain, GoodDedicatedLine x)
    (hx : extractCommentRegex l = some ctext)
    (hp : parse_comment ctext = some (suid2, ts, extra, true)) :
    List.count l (iptables_S (cleanup_stale_rules now ttl d st).2.1 tbl ch) =
      List.count l (iptables_S st tbl ch) := by
  have hunf : (cleanup_stale_rules now ttl d st).2.1 =
      (gcDedicatedChain now ttl (cleanup_stale_heartbeats now ttl d).1.files "nat"
        stormshadowNatChain
        (gcDedicatedChain now ttl (cleanup_stale_heartbeats now ttl d).1.files "filter"
          stormshadowChain
          (gcAnchorChain now ttl (cleanup_stale_heartbeats now ttl d).1.files "FORWARD"
            (gcAnchorChain now ttl (cleanup_stale_heartbeats now ttl d).1.files "OUTPUT"
              (gcAnchorChain now ttl (cleanup_stale_heartbeats now ttl d).1.files "INPUT"
                (st, 0)))))).1 := rfl
  rw [hunf]
  generalize (cleanup_stale_heartbeats now ttl d).1.files = hb
  have HK : ∀ c2, extractCommentRegex l = some c2 → should_remove now ttl hb c2 = none := by
    intro c2 h2
    rw [hx] at h2
    obtain rfl := Option.some.inj h2
    simp [should_remove, hp]
  have hSfil : iptables_S (gcAnchorChain now ttl hb "FORWARD"
      (gcAnchorChain now ttl hb "OUTPUT"
        (gcAnchorChain now ttl hb "INPUT" (st, 0)))).1 "filter" stormshadowChain =
      iptables_S st "filter" stormshadowChain := by
    rw [gcAnchorChain_frame now ttl hb "FORWARD" "filter" stormshadowChain (by decide) _,
      gcAnchorChain_frame now ttl hb "OUTPUT" "filter" stormshadowChain (by decide) _,
      gcAnchorChain_frame now ttl hb "INPUT" "filter" stormshadowChain (by decide) _]
  have hgfil : ∀ x ∈ iptables_S (gcAnchorChain now ttl hb "FORWARD"
      (gcAnchorChain now ttl hb "OUTPUT"
        (gcAnchorChain now ttl hb "INPUT" (st, 0)))).1 "filter" stormshadowChain,
      GoodDedicatedLine x := by
    intro x hxm
    rw [hSfil] at hxm
    exact hfil x hxm
  rw [gcDedicatedChain_id now ttl hb "filter" stormshadowChain _ hgfil]
  have hSnat : iptables_S (gcAnchorChain now ttl hb "FORWARD"
      (gcAnchorChain now ttl hb "OUTPUT"
        (gcAnchorChain now ttl hb "INPUT" (st, 0)))).1 "nat" stormshadowNatChain =
      iptables_S st "nat" stormshadowNatChain := by
    rw [gcAnchorChain_frame now ttl hb "FORWARD" "nat" stormshadowNatChain (by decide) _,
      gcAnchorChain_frame now ttl hb "OUTPUT" "nat" stormshadowNatChain (by decide) _,
      gcAnchorChain_frame now ttl hb "INPUT" "nat" stormshadowNatChain (by decide) _]
  have hgnat : ∀ x ∈ iptables_S (gcAnchorChain now ttl hb "FORWARD"
      (gcAnchorChain now ttl hb "OUTPUT"
        (gcAnchorChain now ttl hb "INPUT" (st, 0)))).1 "nat" stormshadowNatChain,
      GoodDedicatedLine x := by
    intro x hxm
    rw [hSnat] at hxm
    exact hnat x hxm
  rw [gcDedicatedChain_id now ttl hb "nat" stormshadowNatChain _ hgnat]
  rw [gcAnchorChain_count now ttl hb "FORWARD" l tbl ch HK _,
    gcAnchorChain_count now ttl hb "OUTPUT" l tbl ch HK _,
    gcAnchorChain_count now ttl hb "INPUT" l tbl ch HK _]

/-- C4 (witness): on a concrete state holding the preserved `INPUT` anchor jump
and one well-formed dedicated rule, the anchor jump occurs exactly as often in
`INPUT` after `cleanup_stale_rules` as before. -/
theorem c4_witness :
    List.count c4wAnchor
        (iptables_S (cleanup_stale_rules 1000000 7200 ⟨[], []⟩ c4wState).2.1 "filter" "INPUT") =
      List.count c4wAnchor (iptables_S c4wState "filter" "INPUT") :=
  c4_preserved_rule_survives_gc 1000000 7200 ⟨[], []⟩ c4wState "filter" "INPUT" c4wAnchor
    "Stormshadow:anchor:0:INPUT->STORMSHADOW:NOT_DELETE" "anchor" 0 (some "INPUT->STORMSHADOW")
    (by
      intro x hxm
      have hS : iptables_S c4wState "filter" stormshadowChain = [c4wGood] := rfl
      rw [hS] at hxm
      have hxg : x = c4wGood := by simpa using hxm
      rw [hxg]
      exact ⟨("-A STORMSHADOW -p udp -m udp --dport 5061" : String).data,
        ("Stormshadow:wxy:3:udp_dport=5061;queue=2" : String).data,
        ("-j NFQUEUE --queue-num 2" : String).data,
        rfl, by decide, by decide, by decide, by decide, by decide, by decide⟩)
    (by
      intro x hxm
      have hS : iptables_S c4wState "nat" stormshadowNatChain = [] := rfl
      rw [hS] at hxm
      exact absurd hxm (List.not_mem_nil x))
    (by decide)
    (by decide)

end StormShadow
